import Mathlib

/-!
Verification of the CHI form rule engine.

This file gives a shallow embedding, in Lean 4, of the form rule engine of the
CHI repository (src/modules/forms/dsl/expressions.ts, branching.ts, rules.ts,
src/modules/forms/forms.service.ts / forms.validators.ts, and the submission
validator src/modules/submissions/submissions.validators.ts), and proves or
refutes the specification claims about it.

Modelling conventions:
- TypeScript strings are modelled as `List Char` (`Str`), so that the string
  scanning done by the engine (operator search, splitting, quote stripping)
  is ordinary structural recursion.  Bounded scans carry an explicit fuel
  argument (always called with fuel larger than the scanned string, so the
  exhaustion branch is unreachable); this keeps every definition
  kernel-reducible.
- JavaScript numbers are modelled as exact values (`JsNum`): `NaN`, the two
  infinities, or an exact fraction `q n d` (value `n / d`, `d > 0` by
  construction).  Every number appearing in the claims is a small integer,
  on which IEEE doubles are exact.
- JavaScript runtime facilities whose behaviour is defined by the host
  environment rather than by the repository code, namely the current date
  used by the `today()` substitution, `new Date(string)` parsing,
  `RegExp` construction/testing, and `String.prototype.localeCompare`,
  are collected in a `JsEnv` parameter.  All general theorems quantify over
  the environment; concrete witnesses use an explicit `defaultJsEnv`.
- An `AnswerMap` (a decoded JSON object) is an association list with unique
  keys, looked up by first occurrence; a JS `Map` is an association list in
  insertion order with in-place update on `set`.
-/

/-- TypeScript strings, as character lists. -/
abbrev Str := List Char

/-- The single-quote character (used to build expression strings). -/
def quoteChar : Char := '\''

/-- JavaScript number values: NaN, the infinities, or an exact fraction
`n / d` with `d > 0` by construction. -/
inductive JsNum where
  | nan : JsNum
  | inf : JsNum
  | negInf : JsNum
  | q (n : Int) (d : Nat) : JsNum
deriving DecidableEq

/-- The integer `i` as a JS number. -/
def JsNum.ofInt (i : Int) : JsNum := .q i 1

/-- JavaScript values as they occur in decoded submission JSON:
strings, numbers, booleans, `null`, `undefined`, and arrays. -/
inductive JsVal where
  | vstr (s : Str) : JsVal
  | vnum (n : JsNum) : JsVal
  | vbool (b : Bool) : JsVal
  | vnull : JsVal
  | vundefined : JsVal
  | varr (elems : List JsVal) : JsVal
  | vobj (kvs : List (Str × JsVal)) : JsVal

/-- Is the number NaN? -/
def JsNum.isNaN : JsNum → Bool
  | .nan => true
  | _ => false

/-- JS `<` on numbers: any comparison with NaN is false. -/
def JsNum.lt : JsNum → JsNum → Bool
  | .nan, _ => false
  | _, .nan => false
  | .negInf, .negInf => false
  | .negInf, _ => true
  | _, .negInf => false
  | .inf, _ => false
  | .q _ _, .inf => true
  | .q n1 d1, .q n2 d2 => decide (n1 * d2 < n2 * d1)

/-- JS `>` on numbers. -/
def JsNum.gt (a b : JsNum) : Bool := JsNum.lt b a

/-- JS strict equality on numbers (`NaN === NaN` is false). -/
def JsNum.eqb : JsNum → JsNum → Bool
  | .inf, .inf => true
  | .negInf, .negInf => true
  | .q n1 d1, .q n2 d2 => decide (n1 * d2 = n2 * d1)
  | _, _ => false

/-- JS subtraction on numbers (`Infinity - Infinity` is NaN). -/
def JsNum.sub : JsNum → JsNum → JsNum
  | .nan, _ => .nan
  | _, .nan => .nan
  | .inf, .inf => .nan
  | .inf, _ => .inf
  | .negInf, .negInf => .nan
  | .negInf, _ => .negInf
  | .q _ _, .inf => .negInf
  | .q _ _, .negInf => .inf
  | .q n1 d1, .q n2 d2 => .q (n1 * d2 - n2 * d1) (d1 * d2)

/-- Is a compare result `> 0`?  NaN yields false. -/
def JsNum.gtz : JsNum → Bool
  | .nan => false
  | .inf => true
  | .negInf => false
  | .q n _ => decide (0 < n)

/-- Is a compare result `< 0`?  NaN yields false. -/
def JsNum.ltz : JsNum → Bool
  | .nan => false
  | .inf => false
  | .negInf => true
  | .q n _ => decide (n < 0)

/-- Is a compare result `>= 0`?  NaN yields false. -/
def JsNum.gez : JsNum → Bool
  | .nan => false
  | .inf => true
  | .negInf => false
  | .q n _ => decide (0 ≤ n)

/-- Is a compare result `<= 0`?  NaN yields false. -/
def JsNum.lez : JsNum → Bool
  | .nan => false
  | .inf => false
  | .negInf => true
  | .q n _ => decide (n ≤ 0)

/-- Whitespace recognised by JS string trimming and `Number()` coercion. -/
def isJsSpace (c : Char) : Bool :=
  c = ' ' ∨ c = '\t' ∨ c = '\n' ∨ c = '\r' ∨ c = '\x0b' ∨ c = '\x0c'

/-- JS `String.prototype.trim`. -/
def jsTrim (s : Str) : Str :=
  ((s.dropWhile isJsSpace).reverse.dropWhile isJsSpace).reverse

/-- Decimal digit test. -/
def isDigitCh (c : Char) : Bool := '0' ≤ c ∧ c ≤ '9'

/-- Hexadecimal digit value, if any. -/
def hexVal (c : Char) : Option Nat :=
  if '0' ≤ c ∧ c ≤ '9' then some (c.toNat - '0'.toNat)
  else if 'a' ≤ c ∧ c ≤ 'f' then some (c.toNat - 'a'.toNat + 10)
  else if 'A' ≤ c ∧ c ≤ 'F' then some (c.toNat - 'A'.toNat + 10)
  else none

/-- Digits of a radix literal, as a number (none if some char is invalid). -/
def radixDigits (radix : Nat) : Str → Option Nat
  | [] => some 0
  | c :: rest =>
    match hexVal c with
    | none => none
    | some v =>
      if v < radix then
        match radixDigits radix rest with
        | none => none
        | some r => some (v * radix ^ rest.length + r)
      else none

/-- Parse an unsigned decimal-digit run as a natural number. -/
def decDigitsVal (s : Str) : Nat := (radixDigits 10 s).getD 0

/-- The decimal part of the ECMAScript StringNumericLiteral grammar:
`digits [. digits] | . digits`, with an optional exponent.  Returns the
value as a fraction (numerator, positive denominator). -/
def parseDecimalBody (s : Str) : Option (Int × Nat) :=
  let intPart := s.takeWhile isDigitCh
  let rest1 := s.dropWhile isDigitCh
  let (fracPart, rest2) :=
    match rest1 with
    | '.' :: r => (r.takeWhile isDigitCh, r.dropWhile isDigitCh)
    | _ => (([] : Str), rest1)
  if intPart = [] ∧ fracPart = [] then none
  else
    let base : Int := ((decDigitsVal intPart) * 10 ^ fracPart.length + decDigitsVal fracPart : Nat)
    let den : Nat := 10 ^ fracPart.length
    match rest2 with
    | [] => some (base, den)
    | e :: r =>
      if e = 'e' ∨ e = 'E' then
        let (eneg, edigs) :=
          match r with
          | '+' :: rr => (false, rr)
          | '-' :: rr => (true, rr)
          | rr => (false, rr)
        if edigs ≠ [] ∧ edigs.all isDigitCh then
          let k := decDigitsVal edigs
          if eneg then some (base, den * 10 ^ k) else some (base * (10 : Int) ^ k, den)
        else none
      else none

/-- ECMAScript `Number(string)` (StringToNumber): trims, empty means 0,
`0x`/`0o`/`0b` radix literals, signed decimal with optional exponent,
`Infinity`; anything else is NaN. -/
def strToNum (s : Str) : JsNum :=
  let t := jsTrim s
  if t = [] then .q 0 1
  else
    let radix : Option JsNum :=
      match t with
      | '0' :: x :: rest =>
        if (x = 'x' ∨ x = 'X') ∧ rest ≠ [] then
          match radixDigits 16 rest with
          | some n => some (.q (n : Int) 1)
          | none => some .nan
        else if (x = 'o' ∨ x = 'O') ∧ rest ≠ [] then
          match radixDigits 8 rest with
          | some n => some (.q (n : Int) 1)
          | none => some .nan
        else if (x = 'b' ∨ x = 'B') ∧ rest ≠ [] then
          match radixDigits 2 rest with
          | some n => some (.q (n : Int) 1)
          | none => some .nan
        else none
      | _ => none
    match radix with
    | some r => r
    | none =>
      let (neg, body) :=
        match t with
        | '+' :: r => (false, r)
        | '-' :: r => (true, r)
        | r => (false, r)
      if body = ('I' :: 'n' :: 'f' :: 'i' :: 'n' :: 'i' :: 't' :: 'y' :: []) then
        (if neg then .negInf else .inf)
      else
        match parseDecimalBody body with
        | some (n, d) => .q (if neg then -n else n) d
        | none => .nan

/-- Decimal digits of a natural number. -/
def natDigits (n : Nat) : Str := Nat.toDigits 10 n

/-- String of an integer. -/
def intToStr (i : Int) : Str :=
  if i < 0 then '-' :: natDigits i.natAbs else natDigits i.natAbs

/-- Long-division digits of `rem / d` (at most `fuel` digits, stopping at a
zero remainder). -/
def divDigits : Nat → Nat → Nat → Str
  | 0, _, _ => []
  | k + 1, rem, d =>
    if rem = 0 then []
    else Char.ofNat ('0'.toNat + rem * 10 / d) :: divDigits k (rem * 10 % d) d

/-- JS `String(number)`.  Integers are rendered exactly; for non-integral
values we render up to 20 decimal digits — every numeric value reachable in
the verified claims is an integer, where this agrees with JS. -/
def numToStr : JsNum → Str
  | .nan => ('N' :: 'a' :: 'N' :: [])
  | .inf => ("Infinity".toList)
  | .negInf => ('-' :: ("Infinity".toList))
  | .q n d =>
    if n.emod (d : Int) = 0 then intToStr (n.ediv (d : Int))
    else
      let sign : Str := if n < 0 then ['-'] else []
      sign ++ natDigits (n.natAbs / d) ++ '.' :: divDigits 20 (n.natAbs % d) d

mutual
/-- JS `String(value)` on the values we model (arrays join with commas). -/
def jsToString : JsVal → Str
  | .vstr s => s
  | .vnum n => numToStr n
  | .vbool b => if b then ("true".toList) else ("false".toList)
  | .vnull => ("null".toList)
  | .vundefined => ("undefined".toList)
  | .varr xs => jsArrToString xs
  | .vobj _ => ("[object Object]".toList)

/-- `Array.prototype.join(",")`: null/undefined elements render as empty. -/
def jsArrToString : List JsVal → Str
  | [] => []
  | [x] => jsElemToString x
  | x :: y :: rest => jsElemToString x ++ ',' :: jsArrToString (y :: rest)

/-- One array element inside `join`. -/
def jsElemToString : JsVal → Str
  | .vnull => []
  | .vundefined => []
  | v => jsToString v
end

/-- JS `Number(value)` (ToNumber) on the values we model. -/
def jsToNumber : JsVal → JsNum
  | .vnum n => n
  | .vstr s => strToNum s
  | .vbool b => .q (if b then 1 else 0) 1
  | .vnull => .q 0 1
  | .vundefined => .nan
  | .varr xs => strToNum (jsToString (.varr xs))
  | .vobj _ => strToNum (("[object Object]".toList))

/-- JS loose equality `==` on the values we model.  Arrays convert to their
primitive (joined string) when compared with a primitive; two arrays are
distinct object references and compare unequal (reference aliasing is not
modelled). -/
def jsLooseEq : JsVal → JsVal → Bool
  | .vnum a, .vnum b => a.eqb b
  | .vstr a, .vstr b => decide (a = b)
  | .vbool a, .vbool b => decide (a = b)
  | .vnull, .vnull => true
  | .vundefined, .vundefined => true
  | .vnull, .vundefined => true
  | .vundefined, .vnull => true
  | .vnum a, .vstr s => a.eqb (strToNum s)
  | .vstr s, .vnum a => (strToNum s).eqb a
  | .vbool b, .vnum a => (JsNum.q (if b then 1 else 0) 1).eqb a
  | .vnum a, .vbool b => a.eqb (.q (if b then 1 else 0) 1)
  | .vbool b, .vstr s => (JsNum.q (if b then 1 else 0) 1).eqb (strToNum s)
  | .vstr s, .vbool b => (strToNum s).eqb (.q (if b then 1 else 0) 1)
  | .varr xs, .vstr s => decide (jsToString (.varr xs) = s)
  | .vstr s, .varr xs => decide (s = jsToString (.varr xs))
  | .varr xs, .vnum a => (strToNum (jsToString (.varr xs))).eqb a
  | .vnum a, .varr xs => a.eqb (strToNum (jsToString (.varr xs)))
  | .varr xs, .vbool b => (strToNum (jsToString (.varr xs))).eqb (.q (if b then 1 else 0) 1)
  | .vbool b, .varr xs => (JsNum.q (if b then 1 else 0) 1).eqb (strToNum (jsToString (.varr xs)))
  | .vobj _, .vstr s => decide ((("[object Object]".toList) : Str) = s)
  | .vstr s, .vobj _ => decide (s = (("[object Object]".toList) : Str))
  | _, _ => false

/-- The JS host facilities the engine relies on but the repository does not
define: the current date (substituted for `today()`), `new Date(string)`
parsing (a timestamp, NaN when invalid), `RegExp` testing (`none` models a
throwing constructor), and `localeCompare`.  All general theorems hold for
every environment. -/
structure JsEnv where
  todayStr : Str
  parseDate : Str → JsNum
  regexTest : Str → Str → Option Bool
  localeCmp : Str → Str → Int

/-- A concrete environment used by witnesses (its components are irrelevant
to every witness's conclusion). -/
def defaultJsEnv : JsEnv where
  todayStr := ("2026-10-11".toList)
  parseDate := fun _ => .nan
  regexTest := fun _ s => some (s ≠ [])
  localeCmp := fun a b => if a = b then 0 else if a.length ≤ b.length then -1 else 1

/-- `new Date(value).getTime()` on the values we model. -/
def jsToDate (env : JsEnv) : JsVal → JsNum
  | .vstr s => env.parseDate s
  | .vnum n => n
  | .vbool b => .q (if b then 1 else 0) 1
  | .vnull => .q 0 1
  | .vundefined => .nan
  | .varr xs => env.parseDate (jsToString (.varr xs))
  | .vobj _ => env.parseDate (("[object Object]".toList))

/-- Decoded JSON objects (answer maps): association lists with unique keys. -/
abbrev AnswerMap := List (Str × JsVal)

/-- `data.hasOwnProperty(k)`. -/
def hasOwn (data : AnswerMap) (k : Str) : Bool :=
  data.any (fun p => p.1 = k)

/-- `data[k]` (`undefined` when the key is absent). -/
def getProp (data : AnswerMap) (k : Str) : JsVal :=
  match data.find? (fun p => decide (p.1 = k)) with
  | some p => p.2
  | none => .vundefined

/-- `Object.keys(data)`, in insertion order. -/
def objKeys (data : AnswerMap) : List Str := data.map (·.1)

/-- `haystack.includes(needle)` for strings. -/
def includesSub (haystack needle : Str) : Bool :=
  haystack.tails.any (fun t => needle.isPrefixOf t)

/-- Fueled body of `replaceAll`; fuel exceeding the string length never
runs out. -/
def replaceAllF (pat rep : Str) : Nat → Str → Str
  | 0, s => s
  | fuel + 1, s =>
    match s with
    | [] => []
    | c :: rest =>
      if pat ≠ [] ∧ pat.isPrefixOf (c :: rest) then
        rep ++ replaceAllF pat rep fuel ((c :: rest).drop pat.length)
      else
        c :: replaceAllF pat rep fuel rest

/-- Replace every (non-overlapping, leftmost-first) occurrence of `pat` by
`rep`, as JS `String.prototype.replace` with a global literal pattern. -/
def replaceAll (pat rep s : Str) : Str :=
  replaceAllF pat rep (s.length + 1) s

/-- Fueled body of `splitOnSub`. -/
def splitGoF (sep : Str) : Nat → Str → Str → List Str
  | 0, acc, _ => [acc.reverse]
  | fuel + 1, acc, s =>
    if sep ≠ [] ∧ sep.isPrefixOf s then
      acc.reverse :: splitGoF sep fuel [] (s.drop sep.length)
    else
      match s with
      | [] => [acc.reverse]
      | c :: rest => splitGoF sep fuel (c :: acc) rest

/-- JS `s.split(sep)` (the engine only calls it with non-empty literal
separators). -/
def splitOnSub (s sep : Str) : List Str :=
  if sep = [] then s.map (fun c => [c]) else splitGoF sep (s.length + 1) [] s

/-! ## ExpressionEvaluator (src/modules/forms/dsl/expressions.ts) -/

/-- The operator alternatives of the regex `(==|!=|>=|<=|>|<|=)`, in the
pattern's order. -/
def opAlternatives : List Str :=
  [('=' :: '=' :: []), ('!' :: '=' :: []), ('>' :: '=' :: []),
   ('<' :: '=' :: []), ['>'], ['<'], ['=']]

/-- The alternative (in pattern order) matching at the head of `s`, if any. -/
def opMatchAt (s : Str) : Option Str :=
  opAlternatives.find? (fun op => op.isPrefixOf s)

/-- `expression.match(/(==|!=|>=|<=|>|<|=)/)`: the leftmost match, trying the
alternatives in pattern order at each position. -/
def findOperator : Str → Option Str
  | [] => none
  | c :: rest =>
    match opMatchAt (c :: rest) with
    | some op => some op
    | none => findOperator rest

/-- `replaceSpecialFunctions`: substitute `today()` with the quoted current
date before parsing. -/
def replaceSpecialFunctions (env : JsEnv) (expression : Str) : Str :=
  if includesSub expression ("today()".toList) then
    replaceAll ("today()".toList) (quoteChar :: env.todayStr ++ [quoteChar]) expression
  else expression

/-- `parseExpression`: trim, find the first operator, split around it; `none`
when there is no operator or the split does not yield exactly two parts. -/
def parseExpression (expression : Str) : Option (Str × Str × Str) :=
  let expression := jsTrim expression
  match findOperator expression with
  | none => none
  | some operator =>
    let parts := splitOnSub expression operator
    if parts.length ≠ 2 then none
    else
      match parts with
      | [l, r] => some (jsTrim l, operator, jsTrim r)
      | _ => none

/-- `parseLiteral`: quoted strings, booleans, numbers, fallback string. -/
def parseLiteral (value : Str) : JsVal :=
  if (value.head? = some quoteChar ∧ value.getLast? = some quoteChar) ∨
     (value.head? = some '"' ∧ value.getLast? = some '"') then
    .vstr ((value.drop 1).dropLast)
  else if value = ("true".toList) then .vbool true
  else if value = ("false".toList) then .vbool false
  else if ¬ (strToNum value).isNaN then .vnum (strToNum value)
  else .vstr value

/-- `getValue`: a token names a field iff it is a key of the answer map;
otherwise it is parsed as a literal. -/
def getValue (value : Str) (data : AnswerMap) : JsVal :=
  if hasOwn data value then getProp data value else parseLiteral value

/-- `compareValues`: numeric comparison when both operands coerce to numbers,
then date comparison, then `localeCompare`. -/
def compareValues (env : JsEnv) (left right : JsVal) : JsNum :=
  if ¬ (jsToNumber left).isNaN ∧ ¬ (jsToNumber right).isNaN then
    (jsToNumber left).sub (jsToNumber right)
  else
    let leftDate := jsToDate env left
    let rightDate := jsToDate env right
    if ¬ leftDate.isNaN ∧ ¬ rightDate.isNaN then
      leftDate.sub rightDate
    else
      .ofInt (env.localeCmp (jsToString left) (jsToString right))

/-- `evaluateOperator`. -/
def evaluateOperator (env : JsEnv) (left : JsVal) (operator : Str) (right : JsVal) : Bool :=
  if operator = ('=' :: '=' :: []) ∨ operator = ['='] then jsLooseEq left right
  else if operator = ('!' :: '=' :: []) then ¬ jsLooseEq left right
  else if operator = ['>'] then (compareValues env left right).gtz
  else if operator = ['<'] then (compareValues env left right).ltz
  else if operator = ('>' :: '=' :: []) then (compareValues env left right).gez
  else if operator = ('<' :: '=' :: []) then (compareValues env left right).lez
  else false

/-- `ExpressionEvaluator.evaluate`.  The TypeScript body is wrapped in a
try/catch returning `false`; every operation in this embedding is total, so
the catch is unreachable and the function is the plain composition below. -/
def evaluate (env : JsEnv) (expression : Str) (data : AnswerMap) : Bool :=
  let expression := replaceSpecialFunctions env expression
  match parseExpression expression with
  | none => false
  | some (left, operator, right) =>
    evaluateOperator env (getValue left data) operator (getValue right data)

/-- The suffix after the first occurrence of `qc`, if any. -/
def dropThroughChar (qc : Char) : Str → Option Str
  | [] => none
  | c :: rest => if c = qc then some rest else dropThroughChar qc rest

/-- Fueled body of `removeQuoted`. -/
def removeQuotedF (qc : Char) : Nat → Str → Str
  | 0, s => s
  | fuel + 1, s =>
    match s with
    | [] => []
    | c :: rest =>
      if c = qc then
        match dropThroughChar qc rest with
        | some after => removeQuotedF qc fuel after
        | none => c :: removeQuotedF qc fuel rest
      else c :: removeQuotedF qc fuel rest

/-- `s.replace(/q[^q]*q/g, '')` for a quote character `q`: drop every
(leftmost-first) delimited quote pair together with its contents. -/
def removeQuoted (qc : Char) (s : Str) : Str :=
  removeQuotedF qc (s.length + 1) s

/-- Word characters of the identifier regex. -/
def isWordChar (c : Char) : Bool :=
  ('a' ≤ c ∧ c ≤ 'z') ∨ ('A' ≤ c ∧ c ≤ 'Z') ∨ ('0' ≤ c ∧ c ≤ '9') ∨ c = '_'

/-- May a word-character run start an identifier (`[a-zA-Z_]`)? -/
def isIdentStart (c : Char) : Bool :=
  ('a' ≤ c ∧ c ≤ 'z') ∨ ('A' ≤ c ∧ c ≤ 'Z') ∨ c = '_'

/-- Emit a completed word run (reversed accumulator): it is an identifier
token iff its first character may start an identifier — a run beginning with
a digit has no inner word boundary, so the regex skips it entirely. -/
def emitRun (accRev : Str) (tail : List Str) : List Str :=
  match accRev.reverse with
  | [] => tail
  | h :: t => if isIdentStart h then (h :: t) :: tail else tail

/-- All matches of `/\b([a-zA-Z_][a-zA-Z0-9_]*)\b/g`: maximal word-character
runs that start with a letter or underscore. -/
def identTokensGo : Option Str → Str → List Str
  | none, [] => []
  | some acc, [] => emitRun acc []
  | none, c :: rest =>
    if isWordChar c then identTokensGo (some [c]) rest else identTokensGo none rest
  | some acc, c :: rest =>
    if isWordChar c then identTokensGo (some (c :: acc)) rest
    else emitRun acc (identTokensGo none rest)

/-- Identifier tokens of a string. -/
def identTokens (s : Str) : List Str := identTokensGo none s

/-- ASCII lowercasing (JS `toLowerCase` on the identifiers that occur). -/
def toLowerAscii (s : Str) : Str :=
  s.map (fun c => if 'A' ≤ c ∧ c ≤ 'Z' then Char.ofNat (c.toNat + 32) else c)

/-- The keyword set excluded from field references. -/
def keywordSet : List Str :=
  [("true".toList), ("false".toList), ("and".toList), ("or".toList), ("not".toList)]

/-- Keep the first occurrence of each element (`[...new Set(xs)]`). -/
def dedupGo (seen : List Str) : List Str → List Str
  | [] => []
  | x :: rest => if x ∈ seen then dedupGo seen rest else x :: dedupGo (x :: seen) rest

/-- `[...new Set(xs)]`. -/
def dedupKeepFirst (xs : List Str) : List Str := dedupGo [] xs

/-- `ExpressionEvaluator.extractFieldReferences`: strip quoted literals and
`today()`, tokenize identifiers, drop keywords, deduplicate. -/
def extractFieldReferences (expression : Str) : List Str :=
  let cleaned1 := removeQuoted quoteChar expression
  let cleaned2 := removeQuoted '"' cleaned1
  let cleaned3 := replaceAll ("today()".toList) [] cleaned2
  let toks := identTokens cleaned3
  let fields := toks.filter (fun t => ¬ toLowerAscii t ∈ keywordSet)
  dedupKeepFirst fields

/-! ## Form DSL data model (src/modules/forms/dsl/schema.zod.ts)

The structures mirror the raw (cast) definition object as the engine sees it:
zod-`optional` and zod-`default` properties are `Option`s, because
`validateFormDefinition` discards the parsed (default-applied) result and
keeps operating on the raw input object. -/

/-- Field types (`FieldSchema.type`). -/
inductive FieldType where
  | text | textarea | number | date | singleSelect | multiselect | file | signature
deriving DecidableEq

/-- Validation rule kinds (`ValidationRuleSchema.rule`). -/
inductive RuleKind where
  | required | requiredIf | min | max | regex | crossField
deriving DecidableEq

/-- A validation rule.  `value` is `z.any().optional()`: `vundefined` models an
absent property. -/
structure ValidationRule where
  rule : RuleKind
  value : JsVal := .vundefined
  condition : Option Str := none
  message : Str

/-- Branching conditions. -/
structure Branching where
  showIf : Option Str := none
  hideIf : Option Str := none
deriving DecidableEq

/-- A form field. -/
structure FormField where
  id : Str
  type : FieldType
  label : Str
  helpText : Option Str := none
  repeatable : Option Bool := none
  options : Option (List Str) := none
  branching : Option Branching := none
  validation : Option (List ValidationRule) := none

/-- A group of fields (`repeatable` keeps its raw, possibly-absent value:
the engine never reads it). -/
structure FormGroup where
  id : Str
  title : Option Str := none
  repeatable : Option Bool := none
  fields : List FormField

/-- A section whose `fields` and `groups` arrays are present (the engine
iterates both; see the raw layer for absent arrays). -/
structure FormSection where
  id : Str
  title : Str
  description : Option Str := none
  fields : List FormField
  groups : List FormGroup

/-- A form definition as iterated by the engine. -/
structure FormDSL where
  sections : List FormSection

/-- Structured errors (`utils/result.ts`). -/
structure ValidationError where
  path : Str
  code : Str
  message : Str
deriving DecidableEq

/-! ## BranchingEngine (src/modules/forms/dsl/branching.ts) -/

/-- `BranchingEngine.getAllFields`: sections in order, each section's direct
fields then its groups' fields. -/
def getAllFields (form : FormDSL) : List FormField :=
  form.sections.flatMap (fun sec => sec.fields ++ sec.groups.flatMap FormGroup.fields)

/-- `BranchingEngine.isFieldVisible`.  The TypeScript guards
`if (field.branching.showIf)` / `if (field.branching.hideIf)` test
truthiness, so an empty-string expression is skipped like an absent one.
(The `resolvedVisibility` parameter of the source is never read and is
omitted.) -/
def isFieldVisible (env : JsEnv) (field : FormField) (data : AnswerMap) : Bool :=
  match field.branching with
  | none => true
  | some branching =>
    let visible := true
    let visible :=
      match branching.showIf with
      | some showIf => if showIf = [] then visible else evaluate env showIf data
      | none => visible
    let visible :=
      match branching.hideIf with
      | some hideIf =>
        if hideIf = [] then visible
        else if evaluate env hideIf data then false else visible
      | none => visible
    visible

/-- JS `Map.prototype.set` on an insertion-ordered association list:
update in place if the key exists, else append. -/
def jsMapSet {α : Type} (m : List (Str × α)) (k : Str) (v : α) : List (Str × α) :=
  if m.any (fun p => p.1 = k) then m.map (fun p => if p.1 = k then (k, v) else p)
  else m ++ [(k, v)]

/-- JS `Map.prototype.get`. -/
def mapGet {α : Type} (m : List (Str × α)) (k : Str) : Option α :=
  (m.find? (fun p => decide (p.1 = k))).map (·.2)

/-- `BranchingEngine.resolveVisibility`. -/
def resolveVisibility (env : JsEnv) (form : FormDSL) (data : AnswerMap) : List (Str × Bool) :=
  (getAllFields form).foldl
    (fun visibility field => jsMapSet visibility field.id (isFieldVisible env field data)) []

/-- The dependency list pushed for one field in `buildDependencyGraph`
(before deduplication): `showIf` references, `hideIf` references, then for
each rule with a (truthy) condition its references minus the field itself. -/
def fieldDeps (field : FormField) : List Str :=
  (match field.branching with
   | some b =>
     (match b.showIf with
      | some s => if s = [] then [] else extractFieldReferences s
      | none => []) ++
     (match b.hideIf with
      | some h => if h = [] then [] else extractFieldReferences h
      | none => [])
   | none => []) ++
  (match field.validation with
   | some rules =>
     rules.flatMap (fun rule =>
       match rule.condition with
       | some c =>
         if c = [] then [] else (extractFieldReferences c).filter (fun ref => ref ≠ field.id)
       | none => [])
   | none => [])

/-- `BranchingEngine.buildDependencyGraph`. -/
def buildDependencyGraph (form : FormDSL) : List (Str × List Str) :=
  (getAllFields form).foldl
    (fun dependencies field => jsMapSet dependencies field.id (dedupKeepFirst (fieldDeps field)))
    []

/-- `graph.get(fieldId) || []`. -/
def graphGet (graph : List (Str × List Str)) (k : Str) : List Str :=
  (mapGet graph k).getD []

/-- JS `Set.prototype.add` on a membership list. -/
def setAdd (x : Str) (s : List Str) : List Str :=
  if x ∈ s then s else s ++ [x]

/-- First index of `x` (callers establish membership). -/
def idxOf (x : Str) : List Str → Nat
  | [] => 0
  | y :: rest => if y = x then 0 else idxOf x rest + 1

/-- State of the cycle-detection DFS: the global visited set and the cycles
recorded so far. -/
structure DfsState where
  visited : List Str
  cycles : List (List Str)

/-- Fueled body of `detectCycle`.  `path` is the chain of active calls
(excluding the current node); the recursion stack of the source equals
`path ++ [fieldId]` at every use.  The fuel bound passed by the caller
exceeds the number of distinct ids, so the exhaustion branch is
unreachable. -/
def detectCycleGo (graph : List (Str × List Str)) : Nat → Str → List Str → DfsState → DfsState
  | 0, _, _, st => st
  | fuel + 1, fieldId, path, st =>
    let st1 : DfsState := ⟨setAdd fieldId st.visited, st.cycles⟩
    let path' := path ++ [fieldId]
    (graphGet graph fieldId).foldl
      (fun st dep =>
        if dep ∈ st.visited then
          if dep ∈ path' then
            ⟨st.visited, st.cycles ++ [(path'.drop (idxOf dep path')) ++ [dep]]⟩
          else st
        else detectCycleGo graph fuel dep path' st)
      st1

/-- Fuel bound: one more than the total number of id occurrences in the
graph (an upper bound on the distinct ids the DFS can visit). -/
def dfsFuel (graph : List (Str × List Str)) : Nat :=
  graph.length + (graph.map (fun p => p.2.length)).sum + 1

/-- `BranchingEngine.detectCircularDependencies`. -/
def detectCircularDependencies (form : FormDSL) : List (List Str) :=
  let graph := buildDependencyGraph form
  let final :=
    (graph.map (fun p => p.1)).foldl
      (fun st fieldId =>
        if fieldId ∈ st.visited then st else detectCycleGo graph (dfsFuel graph) fieldId [] st)
      ⟨[], []⟩
  final.cycles

/-- State of the topological-sort DFS. -/
structure TopoState where
  visited : List Str
  order : List Str

/-- Fueled body of `getEvaluationOrder`'s `visit`. -/
def visitGo (graph : List (Str × List Str)) : Nat → Str → TopoState → TopoState
  | 0, _, st => st
  | fuel + 1, fieldId, st =>
    if fieldId ∈ st.visited then st
    else
      let st1 : TopoState := ⟨setAdd fieldId st.visited, st.order⟩
      let st2 := (graphGet graph fieldId).foldl (fun st dep => visitGo graph fuel dep st) st1
      ⟨st2.visited, st2.order ++ [fieldId]⟩

/-- `BranchingEngine.getEvaluationOrder`. -/
def getEvaluationOrder (form : FormDSL) : List Str :=
  let graph := buildDependencyGraph form
  let final :=
    ((getAllFields form).map (fun f => f.id)).foldl
      (fun st fieldId => visitGo graph (dfsFuel graph) fieldId st) ⟨[], []⟩
  final.order

/-- One invalid reference record of `validateFieldReferences`. -/
structure RefError where
  fieldId : Str
  invalidRef : Str
  expression : Str

/-- `BranchingEngine.validateFieldReferences`: dangling references in
branching expressions. -/
def validateFieldReferences (form : FormDSL) : List RefError :=
  let allFields := getAllFields form
  let allFieldIds := allFields.map (fun f => f.id)
  allFields.flatMap (fun field =>
    (match field.branching with
     | some b =>
       (match b.showIf with
        | some s =>
          if s = [] then []
          else (extractFieldReferences s).filter (fun ref => ¬ ref ∈ allFieldIds)
            |>.map (fun ref => RefError.mk field.id ref s)
        | none => []) ++
       (match b.hideIf with
        | some h =>
          if h = [] then []
          else (extractFieldReferences h).filter (fun ref => ¬ ref ∈ allFieldIds)
            |>.map (fun ref => RefError.mk field.id ref h)
        | none => [])
     | none => []))

/-! ## ValidationRulesEngine (src/modules/forms/dsl/rules.ts) -/

/-- `ValidationRulesEngine.isEmpty`: null/undefined, a string that trims to
empty, or an empty array. -/
def isEmpty (value : JsVal) : Bool :=
  match value with
  | .vnull => true
  | .vundefined => true
  | .vstr s => jsTrim s = []
  | .varr [] => true
  | _ => false

/-- JS truthiness of a value (used by the `if (!rule.value)` and
`if (!rule.condition)` guards). -/
def isFalsy (v : JsVal) : Bool :=
  match v with
  | .vundefined => true
  | .vnull => true
  | .vbool b => ¬ b
  | .vstr s => s = []
  | .vnum n => n.isNaN ∨ n.eqb (.q 0 1)
  | .varr _ => false
  | .vobj _ => false

/-- `validateRequired`. -/
def validateRequired (field : FormField) (value : JsVal) (rule : ValidationRule) :
    Option ValidationError :=
  if isEmpty value then some ⟨field.id, ("required".toList), rule.message⟩ else none

/-- `validateRequiredIf` (an absent or empty condition string is falsy and
makes the rule a no-op). -/
def validateRequiredIf (env : JsEnv) (field : FormField) (value : JsVal)
    (rule : ValidationRule) (allData : AnswerMap) : Option ValidationError :=
  match rule.condition with
  | none => none
  | some condition =>
    if condition = [] then none
    else if evaluate env condition allData ∧ isEmpty value then
      some ⟨field.id, ("requiredIf".toList), rule.message⟩
    else none

/-- `validateMin`: for numbers, an unparseable value or one below the bound
fails; for dates, an earlier date fails (NaN timestamps compare false). -/
def validateMin (env : JsEnv) (field : FormField) (value : JsVal) (rule : ValidationRule) :
    Option ValidationError :=
  if isEmpty value then none
  else
    let numberErr : Option ValidationError :=
      if field.type = .number then
        let numValue := jsToNumber value
        let minValue := jsToNumber rule.value
        if numValue.isNaN ∨ numValue.lt minValue then
          some ⟨field.id, ('m' :: 'i' :: 'n' :: []), rule.message⟩
        else none
      else none
    match numberErr with
    | some e => some e
    | none =>
      if field.type = .date then
        let dateValue := jsToDate env value
        let minDate := jsToDate env rule.value
        if dateValue.lt minDate then
          some ⟨field.id, ('m' :: 'i' :: 'n' :: []), rule.message⟩
        else none
      else none

/-- `validateMax`, symmetric to `validateMin`. -/
def validateMax (env : JsEnv) (field : FormField) (value : JsVal) (rule : ValidationRule) :
    Option ValidationError :=
  if isEmpty value then none
  else
    let numberErr : Option ValidationError :=
      if field.type = .number then
        let numValue := jsToNumber value
        let maxValue := jsToNumber rule.value
        if numValue.isNaN ∨ numValue.gt maxValue then
          some ⟨field.id, ('m' :: 'a' :: 'x' :: []), rule.message⟩
        else none
      else none
    match numberErr with
    | some e => some e
    | none =>
      if field.type = .date then
        let dateValue := jsToDate env value
        let maxDate := jsToDate env rule.value
        if dateValue.gt maxDate then
          some ⟨field.id, ('m' :: 'a' :: 'x' :: []), rule.message⟩
        else none
      else none

/-- `validateRegex`: skipped on empty values and falsy patterns; a throwing
`RegExp` constructor (`none` from the environment) is caught and passes. -/
def validateRegex (env : JsEnv) (field : FormField) (value : JsVal) (rule : ValidationRule) :
    Option ValidationError :=
  if isEmpty value then none
  else if isFalsy rule.value then none
  else
    match env.regexTest (jsToString rule.value) (jsToString value) with
    | none => none
    | some ok =>
      if ok then none else some ⟨field.id, ("regex".toList), rule.message⟩

/-- `validateCrossField`: the rule fails when its condition evaluates
false. -/
def validateCrossField (env : JsEnv) (field : FormField) (_value : JsVal)
    (rule : ValidationRule) (allData : AnswerMap) : Option ValidationError :=
  match rule.condition with
  | none => none
  | some condition =>
    if condition = [] then none
    else if evaluate env condition allData then none
    else some ⟨field.id, ("cross_field".toList), rule.message⟩

/-- `validateRule` dispatch. -/
def validateRule (env : JsEnv) (field : FormField) (value : JsVal) (rule : ValidationRule)
    (allData : AnswerMap) : Option ValidationError :=
  match rule.rule with
  | .required => validateRequired field value rule
  | .requiredIf => validateRequiredIf env field value rule allData
  | .min => validateMin env field value rule
  | .max => validateMax env field value rule
  | .regex => validateRegex env field value rule
  | .crossField => validateCrossField env field value rule allData

/-- `ValidationRulesEngine.validateField`: every failing rule contributes an
error, in rule order. -/
def validateField (env : JsEnv) (field : FormField) (value : JsVal) (allData : AnswerMap) :
    List ValidationError :=
  match field.validation with
  | none => []
  | some rules => rules.filterMap (fun rule => validateRule env field value rule allData)

/-- `options.includes(value)`: only a string value can equal a string
option. -/
def valInOptions (options : List Str) (v : JsVal) : Bool :=
  match v with
  | .vstr s => s ∈ options
  | _ => false

/-- `validateMultiselect`. -/
def validateMultiselect (field : FormField) (value : JsVal) : Option ValidationError :=
  if field.type = .multiselect then
    match value with
    | .varr items =>
      match field.options with
      | some options =>
        match items.find? (fun item => ¬ valInOptions options item) with
        | some item =>
          some ⟨field.id, ("invalid_option".toList), ("Invalid option: ".toList) ++ jsToString item⟩
        | none => none
      | none => none
    | _ => some ⟨field.id, ("invalid_type".toList), ("Multiselect field must be an array".toList)⟩
  else none

/-- `validateSingleSelect`. -/
def validateSingleSelect (field : FormField) (value : JsVal) : Option ValidationError :=
  if field.type = .singleSelect then
    if isEmpty value then none
    else
      match field.options with
      | some options =>
        if ¬ valInOptions options value then
          some ⟨field.id, ("invalid_option".toList), ("Invalid option: ".toList) ++ jsToString value⟩
        else none
      | none => none
  else none

/-- `ValidationRulesEngine.validateRuleReferences`: dangling identifiers in
rule conditions, reported with code `invalid_reference`. -/
def validateRuleReferences (field : FormField) (allFieldIds : List Str) :
    List ValidationError :=
  match field.validation with
  | none => []
  | some rules =>
    rules.flatMap (fun rule =>
      match rule.condition with
      | some c =>
        if c = [] then []
        else
          (extractFieldReferences c).filter (fun ref => ¬ ref ∈ allFieldIds)
            |>.map (fun ref =>
              ⟨field.id, ("invalid_reference".toList),
               ("Validation rule references non-existent field: ".toList) ++ ref⟩)
      | none => [])

/-! ## SubmissionValidator (src/modules/submissions/submissions.validators.ts) -/

/-- The strict emptiness test of the submission validator
(`=== undefined || === null || === ''`; no trimming). -/
def isStrictEmpty (v : JsVal) : Bool :=
  match v with
  | .vundefined => true
  | .vnull => true
  | .vstr [] => true
  | _ => false

/-- Result of `validateSubmissionData`. -/
structure SubmissionResult where
  isValid : Bool
  errors : List ValidationError
deriving DecidableEq

/-- `SubmissionValidator.validateSubmissionData` (the validator is a pure
function of the answer map and the stored definition; its try/catch is
unreachable in this total embedding). -/
def validateSubmissionData (env : JsEnv) (submissionData : AnswerMap) (definition : FormDSL) :
    SubmissionResult :=
  let allFields := getAllFields definition
  let visibilityMap := resolveVisibility env definition submissionData
  let submittedFieldIds := objKeys submissionData
  let visibleFieldIds := (visibilityMap.filter (fun p => p.2)).map (fun p => p.1)
  let errors1 := submittedFieldIds.filterMap (fun submittedFieldId =>
    if ¬ submittedFieldId ∈ visibleFieldIds then
      some ⟨("field.".toList) ++ submittedFieldId, ("invalid_field".toList),
            ("Field ".toList) ++ quoteChar :: submittedFieldId ++ quoteChar ::
              (" is not visible or does not exist in the form".toList)⟩
    else none)
  let errors2 := visibleFieldIds.filterMap (fun fieldId =>
    match allFields.find? (fun f => decide (f.id = fieldId)) with
    | none => none
    | some field =>
      let fieldValue := getProp submissionData fieldId
      let isRequired :=
        match field.validation with
        | some rules => rules.any (fun rule => rule.rule = .required)
        | none => false
      if isRequired && isStrictEmpty fieldValue then
        some ⟨("field.".toList) ++ fieldId, ("required_field".toList),
              ("Field ".toList) ++ quoteChar ::
                (if field.label = [] then fieldId else field.label) ++ quoteChar ::
                (" is required".toList)⟩
      else none)
  let errors3 := visibleFieldIds.filterMap (fun fieldId =>
    match allFields.find? (fun f => decide (f.id = fieldId)) with
    | none => none
    | some field =>
      let fieldValue := getProp submissionData fieldId
      if isStrictEmpty fieldValue then none
      else if field.type = .singleSelect then
        (validateSingleSelect field fieldValue).map (fun e =>
          ⟨("field.".toList) ++ fieldId, e.code, e.message⟩)
      else if field.type = .multiselect then
        (validateMultiselect field fieldValue).map (fun e =>
          ⟨("field.".toList) ++ fieldId, e.code, e.message⟩)
      else none)
  let errors4 := visibleFieldIds.flatMap (fun fieldId =>
    match allFields.find? (fun f => decide (f.id = fieldId)) with
    | none => []
    | some field =>
      let fieldValue := getProp submissionData fieldId
      (validateField env field fieldValue submissionData).map (fun e =>
        ⟨("field.".toList) ++ fieldId, e.code, e.message⟩))
  let errors := errors1 ++ errors2 ++ errors3 ++ errors4
  ⟨errors.length = 0, errors⟩

/-! ## Concrete scenario of claim C1 -/

/-- The `field_smoker == 'Yes'` expression. -/
def c1Cond : Str := ("field_smoker == ".toList) ++ quoteChar :: ("Yes".toList) ++ [quoteChar]

/-- The smoker singleSelect field. -/
def c1Smoker : FormField :=
  { id := ("field_smoker".toList), type := .singleSelect, label := ("Smoker".toList),
    options := some [("Yes".toList), ("No".toList)] }

/-- The conditionally required cigarettes-per-day number field. -/
def c1Cigs : FormField :=
  { id := ("field_cigs".toList), type := .number, label := ("Cigarettes per day".toList),
    branching := some { showIf := some c1Cond },
    validation := some [{ rule := .requiredIf, condition := some c1Cond,
                          message := ("Required when smoker".toList) }] }

/-- The two-field form of claim C1. -/
def c1Form : FormDSL :=
  ⟨[⟨("s1".toList), ("Section 1".toList), none, [c1Smoker, c1Cigs], []⟩]⟩

/-! ## Raw definitions and the zod schema (schema.zod.ts)

`validateFormDefinition` receives an arbitrary decoded JSON value, runs
`FormDSLSchema.safeParse` on it, and — crucially — keeps working with the
**raw** input object (`definition as FormDSL`), not with the parsed result,
so zod `.default(...)` values are never materialised.  The raw layer below
records which defaulted arrays are actually present. -/

/-- Decoded JSON input values. -/
inductive JsonVal where
  | jstr (s : Str) : JsonVal
  | jnum (n : Int) (d : Nat) : JsonVal
  | jbool (b : Bool) : JsonVal
  | jnull : JsonVal
  | jarr (xs : List JsonVal) : JsonVal
  | jobj (kvs : List (Str × JsonVal)) : JsonVal

mutual
/-- A decoded JSON value as a runtime JS value. -/
def jsonToJsVal : JsonVal → JsVal
  | .jstr s => .vstr s
  | .jnum n d => .vnum (.q n d)
  | .jbool b => .vbool b
  | .jnull => .vnull
  | .jarr xs => .varr (jsonListToJsVal xs)
  | .jobj kvs => .vobj (jsonPairsToJsVal kvs)

/-- Elementwise conversion. -/
def jsonListToJsVal : List JsonVal → List JsVal
  | [] => []
  | x :: rest => jsonToJsVal x :: jsonListToJsVal rest

/-- Pairwise conversion. -/
def jsonPairsToJsVal : List (Str × JsonVal) → List (Str × JsVal)
  | [] => []
  | (k, v) :: rest => (k, jsonToJsVal v) :: jsonPairsToJsVal rest
end

/-- Property lookup on a JSON object. -/
def getKey (kvs : List (Str × JsonVal)) (k : Str) : Option JsonVal :=
  (kvs.find? (fun p => decide (p.1 = k))).map (fun p => p.2)

/-- `err.path.join('.')`. -/
def joinDot : List Str → Str
  | [] => []
  | [x] => x
  | x :: y :: rest => x ++ '.' :: joinDot (y :: rest)

/-- A zod issue mapped to the `{path, code, message}` shape (as
`validateZodSchema` does). -/
def zIssue (path : List Str) (code message : Str) : ValidationError :=
  ⟨joinDot path, code, message⟩

/-- The errors of a parse step (empty iff it succeeded). -/
def errsOf {α : Type} : Except (List ValidationError) α → List ValidationError
  | .ok _ => []
  | .error e => e

/-- The value of a parse step, if it succeeded. -/
def okOf {α : Type} : Except (List ValidationError) α → Option α
  | .ok a => some a
  | .error _ => none

/-- zod `z.string()` (`min1` adds `.min(1)`). -/
def zString (path : List Str) (min1 : Bool) : JsonVal → Except (List ValidationError) Str
  | .jstr s =>
    if min1 ∧ s = [] then
      .error [zIssue path ("too_small".toList) ("String must contain at least 1 character(s)".toList)]
    else .ok s
  | _ => .error [zIssue path ("invalid_type".toList) ("Expected string".toList)]

/-- zod `z.boolean()`. -/
def zBool (path : List Str) : JsonVal → Except (List ValidationError) Bool
  | .jbool b => .ok b
  | _ => .error [zIssue path ("invalid_type".toList) ("Expected boolean".toList)]

/-- An optional key of an object schema. -/
def zOptKey {α : Type} (kvs : List (Str × JsonVal)) (key : Str)
    (parse : JsonVal → Except (List ValidationError) α) :
    Except (List ValidationError) (Option α) :=
  match getKey kvs key with
  | none => .ok none
  | some v => (parse v).map some

/-- A required key of an object schema (`Required` issue when absent). -/
def zReqKey {α : Type} (path : List Str) (kvs : List (Str × JsonVal)) (key : Str)
    (parse : JsonVal → Except (List ValidationError) α) :
    Except (List ValidationError) α :=
  match getKey kvs key with
  | none => .error [zIssue (path ++ [key]) ("invalid_type".toList) ("Required".toList)]
  | some v => parse v

/-- zod `z.array(elem)` with an optional `.min(1)`; element issues from all
positions accumulate. -/
def zArray {α : Type} (path : List Str) (min1 : Bool)
    (elemParse : List Str → JsonVal → Except (List ValidationError) α) :
    JsonVal → Except (List ValidationError) (List α)
  | .jarr xs =>
    let results := xs.enum.map (fun p => elemParse (path ++ [natDigits p.1]) p.2)
    let errs := results.flatMap errsOf
    if errs = [] then
      if min1 ∧ xs.isEmpty then
        .error [zIssue path ("too_small".toList) ("Array must contain at least 1 element(s)".toList)]
      else .ok (results.filterMap okOf)
    else .error errs
  | _ => .error [zIssue path ("invalid_type".toList) ("Expected array".toList)]

/-- zod `BranchingSchema`. -/
def parseBranching (path : List Str) : JsonVal → Except (List ValidationError) Branching
  | .jobj kvs =>
    let r1 := zOptKey kvs ("showIf".toList) (zString (path ++ [("showIf".toList)]) false)
    let r2 := zOptKey kvs ("hideIf".toList) (zString (path ++ [("hideIf".toList)]) false)
    let errs := errsOf r1 ++ errsOf r2
    match okOf r1, okOf r2 with
    | some a, some b => if errs = [] then .ok ⟨a, b⟩ else .error errs
    | _, _ => .error errs
  | _ => .error [zIssue path ("invalid_type".toList) ("Expected object".toList)]

/-- The `ValidationRuleSchema.rule` enum. -/
def parseRuleKind (path : List Str) : JsonVal → Except (List ValidationError) RuleKind
  | .jstr s =>
    if s = ("required".toList) then .ok .required
    else if s = ("requiredIf".toList) then .ok .requiredIf
    else if s = ('m' :: 'i' :: 'n' :: []) then .ok .min
    else if s = ('m' :: 'a' :: 'x' :: []) then .ok .max
    else if s = ("regex".toList) then .ok .regex
    else if s = ("cross_field".toList) then .ok .crossField
    else .error [zIssue path ("invalid_enum_value".toList) ("Invalid enum value".toList)]
  | _ => .error [zIssue path ("invalid_type".toList) ("Expected string".toList)]

/-- zod `ValidationRuleSchema` (`value` is `z.any().optional()`: always
accepted, `vundefined` when absent). -/
def parseValidationRule (path : List Str) : JsonVal → Except (List ValidationError) ValidationRule
  | .jobj kvs =>
    let r1 := zReqKey path kvs ("rule".toList) (parseRuleKind (path ++ [("rule".toList)]))
    let rv : JsVal :=
      match getKey kvs ("value".toList) with
      | none => .vundefined
      | some v => jsonToJsVal v
    let r2 := zOptKey kvs ("condition".toList) (zString (path ++ [("condition".toList)]) false)
    let r3 := zReqKey path kvs ("message".toList) (zString (path ++ [("message".toList)]) true)
    let errs := errsOf r1 ++ errsOf r2 ++ errsOf r3
    match okOf r1, okOf r2, okOf r3 with
    | some k, some c, some m => if errs = [] then .ok ⟨k, rv, c, m⟩ else .error errs
    | _, _, _ => .error errs
  | _ => .error [zIssue path ("invalid_type".toList) ("Expected object".toList)]

/-- The `FieldSchema.type` enum. -/
def parseFieldType (path : List Str) : JsonVal → Except (List ValidationError) FieldType
  | .jstr s =>
    if s = ("text".toList) then .ok .text
    else if s = ("textarea".toList) then .ok .textarea
    else if s = ("number".toList) then .ok .number
    else if s = ("date".toList) then .ok .date
    else if s = ("singleSelect".toList) then .ok .singleSelect
    else if s = ("multiselect".toList) then .ok .multiselect
    else if s = ("file".toList) then .ok .file
    else if s = ("signature".toList) then .ok .signature
    else .error [zIssue path ("invalid_enum_value".toList) ("Invalid enum value".toList)]
  | _ => .error [zIssue path ("invalid_type".toList) ("Expected string".toList)]

/-- zod `FieldSchema`. -/
def parseField (path : List Str) : JsonVal → Except (List ValidationError) FormField
  | .jobj kvs =>
    let r1 := zReqKey path kvs ("id".toList) (zString (path ++ [("id".toList)]) true)
    let r2 := zReqKey path kvs ("type".toList) (parseFieldType (path ++ [("type".toList)]))
    let r3 := zReqKey path kvs ("label".toList) (zString (path ++ [("label".toList)]) true)
    let r4 := zOptKey kvs ("helpText".toList) (zString (path ++ [("helpText".toList)]) false)
    let r5 := zOptKey kvs ("repeatable".toList) (zBool (path ++ [("repeatable".toList)]))
    let r6 := zOptKey kvs ("options".toList)
      (zArray (path ++ [("options".toList)]) false (fun p v => zString p false v))
    let r7 := zOptKey kvs ("branching".toList) (parseBranching (path ++ [("branching".toList)]))
    let r8 := zOptKey kvs ("validation".toList)
      (zArray (path ++ [("validation".toList)]) false parseValidationRule)
    let errs := errsOf r1 ++ errsOf r2 ++ errsOf r3 ++ errsOf r4 ++ errsOf r5 ++ errsOf r6 ++
      errsOf r7 ++ errsOf r8
    match okOf r1, okOf r2, okOf r3, okOf r4, okOf r5, okOf r6, okOf r7, okOf r8 with
    | some id, some ty, some lbl, some ht, some rp, some opts, some br, some val =>
      if errs = [] then .ok ⟨id, ty, lbl, ht, rp, opts, br, val⟩ else .error errs
    | _, _, _, _, _, _, _, _ => .error errs
  | _ => .error [zIssue path ("invalid_type".toList) ("Expected object".toList)]

/-- zod `GroupSchema` (`repeatable` keeps its raw optional value: its
`.default(false)` is only applied to the parsed result, which the validator
discards). -/
def parseGroup (path : List Str) : JsonVal → Except (List ValidationError) FormGroup
  | .jobj kvs =>
    let r1 := zReqKey path kvs ("id".toList) (zString (path ++ [("id".toList)]) true)
    let r2 := zOptKey kvs ("title".toList) (zString (path ++ [("title".toList)]) false)
    let r3 := zOptKey kvs ("repeatable".toList) (zBool (path ++ [("repeatable".toList)]))
    let r4 := zReqKey path kvs ("fields".toList)
      (zArray (path ++ [("fields".toList)]) true parseField)
    let errs := errsOf r1 ++ errsOf r2 ++ errsOf r3 ++ errsOf r4
    match okOf r1, okOf r2, okOf r3, okOf r4 with
    | some id, some t, some rp, some fs => if errs = [] then .ok ⟨id, t, rp, fs⟩ else .error errs
    | _, _, _, _ => .error errs
  | _ => .error [zIssue path ("invalid_type".toList) ("Expected object".toList)]

/-- A section as the raw (cast) object presents it: `fields` and `groups`
have zod defaults, so their keys may be absent even after a successful
parse. -/
structure RawSection where
  id : Str
  title : Str
  description : Option Str := none
  fields : Option (List FormField) := none
  groups : Option (List FormGroup) := none

/-- A raw form definition after a successful zod parse. -/
structure RawForm where
  sections : List RawSection

/-- zod `SectionSchema`, keeping the raw view of defaulted keys. -/
def parseSection (path : List Str) : JsonVal → Except (List ValidationError) RawSection
  | .jobj kvs =>
    let r1 := zReqKey path kvs ("id".toList) (zString (path ++ [("id".toList)]) true)
    let r2 := zReqKey path kvs ("title".toList) (zString (path ++ [("title".toList)]) true)
    let r3 := zOptKey kvs ("description".toList) (zString (path ++ [("description".toList)]) false)
    let r4 := zOptKey kvs ("fields".toList) (zArray (path ++ [("fields".toList)]) false parseField)
    let r5 := zOptKey kvs ("groups".toList) (zArray (path ++ [("groups".toList)]) false parseGroup)
    let errs := errsOf r1 ++ errsOf r2 ++ errsOf r3 ++ errsOf r4 ++ errsOf r5
    match okOf r1, okOf r2, okOf r3, okOf r4, okOf r5 with
    | some id, some t, some d, some fs, some gs =>
      if errs = [] then .ok ⟨id, t, d, fs, gs⟩ else .error errs
    | _, _, _, _, _ => .error errs
  | _ => .error [zIssue path ("invalid_type".toList) ("Expected object".toList)]

/-- zod `FormDSLSchema.safeParse`, returning the raw view on success. -/
def parseFormRaw : JsonVal → Except (List ValidationError) RawForm
  | .jobj kvs =>
    let r := zReqKey [] kvs ("sections".toList)
      (zArray [("sections".toList)] true parseSection)
    match r with
    | .ok sections => .ok ⟨sections⟩
    | .error errs => .error errs
  | _ => .error [zIssue [] ("invalid_type".toList) ("Expected object".toList)]

/-- `FormsValidator.validateZodSchema`: the mapped issue list (empty on
success). -/
def validateZodSchema (definition : JsonVal) : List ValidationError :=
  match parseFormRaw definition with
  | .ok _ => []
  | .error errs => errs

/-- A raw section with both defaulted arrays present, as a `FormSection`. -/
def completeSection (s : RawSection) : Option FormSection :=
  match s.fields, s.groups with
  | some fs, some gs => some ⟨s.id, s.title, s.description, fs, gs⟩
  | _, _ => none

/-- The raw cast (`definition as FormDSL`) is only iterable when every
section carries explicit `fields` and `groups` arrays; otherwise the first
`getAllFields` spread throws a TypeError. -/
def rawToDSL (raw : RawForm) : Option FormDSL :=
  (raw.sections.mapM completeSection).map FormDSL.mk

/-! ## FormsValidator (forms.service.ts, authoring-time pipeline) -/

/-- Rendered rule-kind names (template-literal interpolation). -/
def ruleName : RuleKind → Str
  | .required => ("required".toList)
  | .requiredIf => ("requiredIf".toList)
  | .min => ('m' :: 'i' :: 'n' :: [])
  | .max => ('m' :: 'a' :: 'x' :: [])
  | .regex => ("regex".toList)
  | .crossField => ("cross_field".toList)

/-- Rendered field-type names. -/
def typeName : FieldType → Str
  | .text => ("text".toList)
  | .textarea => ("textarea".toList)
  | .number => ("number".toList)
  | .date => ("date".toList)
  | .singleSelect => ("singleSelect".toList)
  | .multiselect => ("multiselect".toList)
  | .file => ("file".toList)
  | .signature => ("signature".toList)

/-- `xs.join(sep)`. -/
def joinWith (sep : Str) : List Str → Str
  | [] => []
  | [x] => x
  | x :: y :: rest => x ++ sep ++ joinWith sep (y :: rest)

/-- Duplicate detection of `validateFieldIdUniqueness`: ids already seen go
to the duplicates set (first-detection order). -/
def dupGo (seen dups : List Str) : List Str → List Str
  | [] => dups
  | id :: rest =>
    if id ∈ seen then dupGo seen (setAdd id dups) rest
    else dupGo (setAdd id seen) dups rest

/-- `FormsValidator.validateFieldIdUniqueness`. -/
def validateFieldIdUniqueness (form : FormDSL) : List ValidationError :=
  (dupGo [] [] ((getAllFields form).map (fun f => f.id))).map (fun dup =>
    ⟨("field.".toList) ++ dup, ("duplicate_field_id".toList),
     ("Field ID ".toList) ++ quoteChar :: dup ++ quoteChar ::
       (" is used multiple times. Field IDs must be unique across the entire form.".toList)⟩)

/-- `FormsValidator.validateFieldOptions`. -/
def validateFieldOptions (form : FormDSL) : List ValidationError :=
  (getAllFields form).filterMap (fun field =>
    if (field.type = .singleSelect ∨ field.type = .multiselect) ∧
       (field.options = none ∨ field.options = some []) then
      some ⟨("field.".toList) ++ field.id, ("missing_options".toList),
            ("Field ".toList) ++ quoteChar :: field.id ++ quoteChar ::
              (" of type ".toList) ++ quoteChar :: typeName field.type ++ quoteChar ::
              (" must have options defined.".toList)⟩
    else none)

/-- `FormsValidator.validateBranching`: dangling branching references,
reported with code `invalid_field_reference`. -/
def validateBranching (form : FormDSL) : List ValidationError :=
  (validateFieldReferences form).map (fun refError =>
    ⟨("field.".toList) ++ refError.fieldId ++ (".branching".toList),
     ("invalid_field_reference".toList),
     ("Field ".toList) ++ quoteChar :: refError.fieldId ++ quoteChar ::
       (" references non-existent field ".toList) ++ quoteChar :: refError.invalidRef ++
       quoteChar :: (" in expression: ".toList) ++ refError.expression⟩)

/-- `FormsValidator.validateRuleCompatibility`. -/
def validateRuleCompatibility (field : FormField) (ruleType : RuleKind) :
    Option ValidationError :=
  let allowed : Option (List FieldType) :=
    match ruleType with
    | .min => some [.number, .date]
    | .max => some [.number, .date]
    | .regex => some [.text, .textarea]
    | _ => none
  match allowed with
  | none => none
  | some allowedTypes =>
    if ¬ field.type ∈ allowedTypes then
      some ⟨("field.".toList) ++ field.id ++ (".validation".toList),
            ("incompatible_rule".toList),
            ("Validation rule ".toList) ++ quoteChar :: ruleName ruleType ++ quoteChar ::
              (" cannot be used with field type ".toList) ++ quoteChar :: typeName field.type ++
              quoteChar :: (". Allowed types: ".toList) ++
              joinWith (',' :: ' ' :: []) (allowedTypes.map typeName)⟩
    else none

/-- `FormsValidator.validateValidationRules`: per field, dangling rule
references then rule/type compatibility. -/
def validateValidationRules (form : FormDSL) : List ValidationError :=
  let allFields := getAllFields form
  let allFieldIds := allFields.map (fun f => f.id)
  allFields.flatMap (fun field =>
    validateRuleReferences field allFieldIds ++
    (match field.validation with
     | some rules => rules.filterMap (fun rule => validateRuleCompatibility field rule.rule)
     | none => []))

/-- `FormsValidator.detectCircularDependencies` (the error-producing wrapper
around the engine's cycle detection). -/
def detectCircularDependenciesErrors (form : FormDSL) : List ValidationError :=
  (detectCircularDependencies form).map (fun cycle =>
    ⟨("form.branching".toList), ("circular_dependency".toList),
     ("Circular dependency detected: ".toList) ++ joinWith (' ' :: '→' :: ' ' :: []) cycle⟩)

/-- Checks 2–6 of `validateFormDefinition`, on an iterable definition. -/
def validateFormChecks (form : FormDSL) : List ValidationError :=
  validateFieldIdUniqueness form ++ validateFieldOptions form ++ validateBranching form ++
    validateValidationRules form ++ detectCircularDependenciesErrors form

/-- Decidable equality for `Except` results. -/
instance {e a : Type} [DecidableEq e] [DecidableEq a] : DecidableEq (Except e a) := fun x y =>
  match x, y with
  | .ok v1, .ok v2 => decidable_of_iff (v1 = v2) (by simp)
  | .error e1, .error e2 => decidable_of_iff (e1 = e2) (by simp)
  | .ok _, .error _ => isFalse (by simp)
  | .error _, .ok _ => isFalse (by simp)

/-- `FormsValidator.validateFormDefinition`.  Shape errors short-circuit the
pipeline; on success the remaining checks run on the **raw** cast object, so
a section whose `fields`/`groups` arrays were supplied by zod defaults (and
are absent from the raw object) makes the first `getAllFields` iteration
throw a TypeError — modelled as `Except.error ()`. -/
def validateFormDefinition (definition : JsonVal) : Except Unit (List ValidationError) :=
  match parseFormRaw definition with
  | .error zodErrors => .ok zodErrors
  | .ok raw =>
    match rawToDSL raw with
    | none => .error ()
    | some formDSL => .ok (validateFormChecks formDSL)

/-! ## Graph notions and concrete claim inputs -/

/-- The dependency-graph edge relation: `x` depends on `y`. -/
def graphEdge (graph : List (Str × List Str)) (x y : Str) : Prop :=
  y ∈ graphGet graph x

/-- A graph with no dependency cycle (no node reaches itself through one or
more edges). -/
def AcyclicGraph (graph : List (Str × List Str)) : Prop :=
  ∀ x, ¬ Relation.TransGen (graphEdge graph) x x

/-- All id occurrences of a graph (keys and dependency entries): the DFS can
only ever visit these. -/
def allIds (graph : List (Str × List Str)) : List Str :=
  graph.map (fun p => p.1) ++ graph.flatMap (fun p => p.2)

/-- C2 counterexample field: `showIf` present but the empty string, which the
truthiness guard skips. -/
def c2CexField : FormField :=
  { id := ['f'], type := .text, label := ['F'],
    branching := some { showIf := some [] } }

/-- C2 counterexample form. -/
def c2CexForm : FormDSL := ⟨[⟨('s' :: []), ('S' :: []), none, [c2CexField], []⟩]⟩

/-- C10 min rule. -/
def c10MinRule : ValidationRule :=
  { rule := .min, value := .vnum (.q 0 1), message := ("too small".toList) }

/-- C10 max rule. -/
def c10MaxRule : ValidationRule :=
  { rule := .max, value := .vnum (.q 120 1), message := ("too big".toList) }

/-- C10 number field with both bounds. -/
def c10Field : FormField :=
  { id := ('n' :: []), type := .number, label := ('N' :: []),
    validation := some [c10MinRule, c10MaxRule] }

/-- C4 field `a`, whose `showIf` references `b`. -/
def c4FieldA : FormField :=
  { id := ['a'], type := .text, label := ['A'],
    branching := some { showIf := some ('b' :: (" == 1".toList)) } }

/-- C4 field `b`, whose `showIf` references `a`. -/
def c4FieldB : FormField :=
  { id := ['b'], type := .text, label := ['B'],
    branching := some { showIf := some ('a' :: (" == 1".toList)) } }

/-- The mutually dependent two-field form. -/
def c4MutualForm : FormDSL := ⟨[⟨('s' :: []), ('S' :: []), none, [c4FieldA, c4FieldB], []⟩]⟩

/-- A one-field form with no dependencies at all. -/
def c4AcyclicForm : FormDSL :=
  ⟨[⟨('s' :: []), ('S' :: []), none,
     [{ id := ['a'], type := .text, label := ['A'] }], []⟩]⟩

/-- C9 counterexample field: a `requiredIf` rule whose condition references
the non-existent field `ghost`. -/
def c9Field : FormField :=
  { id := ['a'], type := .text, label := ['A'],
    validation := some [{ rule := .requiredIf, condition := some ("ghost == 1".toList),
                          message := ('m' :: []) }] }

/-- C9 counterexample form (DSL view). -/
def c9Form : FormDSL := ⟨[⟨("s1".toList), ('S' :: []), none, [c9Field], []⟩]⟩

/-- C9 counterexample form as raw JSON (passes shape validation). -/
def c9Json : JsonVal :=
  .jobj [(("sections".toList), .jarr [
    .jobj [(("id".toList), .jstr ("s1".toList)),
           (("title".toList), .jstr ('S' :: [])),
           (("fields".toList), .jarr [
             .jobj [(("id".toList), .jstr ['a']),
                    (("type".toList), .jstr ("text".toList)),
                    (("label".toList), .jstr ['A']),
                    (("validation".toList), .jarr [
                      .jobj [(("rule".toList), .jstr ("requiredIf".toList)),
                             (("condition".toList), .jstr ("ghost == 1".toList)),
                             (("message".toList), .jstr ['m'])]])]]),
           (("groups".toList), .jarr [])]])]

/-- C7 counterexample field: a number field with only a `min` rule. -/
def c7Field : FormField :=
  { id := ['n'], type := .number, label := ['N'],
    validation := some [{ rule := .min, value := .vnum (.q 5 1), message := ('m' :: []) }] }

/-- C7 counterexample form (DSL view). -/
def c7Form : FormDSL := ⟨[⟨("s1".toList), ('S' :: []), none, [c7Field], []⟩]⟩

/-- C7 counterexample form as raw JSON. -/
def c7Json : JsonVal :=
  .jobj [(("sections".toList), .jarr [
    .jobj [(("id".toList), .jstr ("s1".toList)),
           (("title".toList), .jstr ('S' :: [])),
           (("fields".toList), .jarr [
             .jobj [(("id".toList), .jstr ['n']),
                    (("type".toList), .jstr ("number".toList)),
                    (("label".toList), .jstr ['N']),
                    (("validation".toList), .jarr [
                      .jobj [(("rule".toList), .jstr ('m' :: 'i' :: 'n' :: [])),
                             (("value".toList), .jnum 5 1),
                             (("message".toList), .jstr ['m'])]])]]),
           (("groups".toList), .jarr [])]])]

/-- C3 failing input: a schema-valid definition relying on the zod defaults
for `fields` and `groups`. -/
def c3Input : JsonVal :=
  .jobj [(("sections".toList), .jarr [
    .jobj [(("id".toList), .jstr ['s']), (("title".toList), .jstr ['T'])]])]

/-- Submitted answers for the C1 "No" case. -/
def c1NoData : AnswerMap := [(("field_smoker".toList), .vstr ("No".toList))]

/-- Submitted answers for the C1 "Yes" case (cigarettes absent). -/
def c1YesData : AnswerMap := [(("field_smoker".toList), .vstr ("Yes".toList))]

/-- Fully populated answers for the C7 witness. -/
def c1FullData : AnswerMap :=
  [(("field_smoker".toList), .vstr ("Yes".toList)), (("field_cigs".toList), .vnum (.q 5 1))]

/-- C2 witness field: `hideIf` true wins over `showIf` true. -/
def c2WitField : FormField :=
  { id := ['g'], type := .text, label := ['G'],
    branching := some { showIf := some ("1 == 1".toList), hideIf := some ("1 == 1".toList) } }

/-- Number of graph ids not yet visited (the DFS recursion measure). -/
def countNV (graph : List (Str × List Str)) (visited : List Str) : Nat :=
  ((allIds graph).filter (fun x => decide (x ∉ visited))).length

/-! # Theorems -/

/-- The empty expression always evaluates to false (no operator to find). -/
theorem evaluate_nil (env : JsEnv) (data : AnswerMap) : evaluate env [] data = false := rfl

/-- C1: end-to-end scenario.  Under `{field_smoker: "No"}` the `field_cigs`
field is invisible and submission validation returns no error at all (in
particular no required/requiredIf error for the absent `field_cigs`); under
`{field_smoker: "Yes"}` with `field_cigs` absent it is visible and
validation returns exactly one error, with code `requiredIf`, for
`field_cigs`.  The theorem holds for every JS environment. -/
theorem C1_smoker_end_to_end (env : JsEnv) :
    (mapGet (resolveVisibility env c1Form c1NoData) (("field_cigs".toList)) = some false ∧
     (validateSubmissionData env c1NoData c1Form).errors = []) ∧
    (mapGet (resolveVisibility env c1Form c1YesData) (("field_cigs".toList)) = some true ∧
     (validateSubmissionData env c1YesData c1Form).errors =
       [⟨("field.field_cigs".toList), ("requiredIf".toList), ("Required when smoker".toList)⟩]) :=
  ⟨⟨rfl, rfl⟩, rfl, rfl⟩

/-- C10: for a number field carrying exactly a `min` and a `max` rule, any
non-empty value that does not coerce to a number (NaN) produces two errors:
one `min` and one `max`, because the NaN guard fires in both validators. -/
theorem C10_nan_double_bound (env : JsEnv) (field : FormField) (value : JsVal)
    (minRule maxRule : ValidationRule) (data : AnswerMap)
    (htype : field.type = .number)
    (hval : field.validation = some [minRule, maxRule])
    (hmin : minRule.rule = .min) (hmax : maxRule.rule = .max)
    (hne : isEmpty value = false)
    (hnan : (jsToNumber value).isNaN = true) :
    validateField env field value data =
      [⟨field.id, ('m' :: 'i' :: 'n' :: []), minRule.message⟩,
       ⟨field.id, ('m' :: 'a' :: 'x' :: []), maxRule.message⟩] := by
  simp [validateField, hval, List.filterMap, validateRule, hmin, hmax, validateMin, validateMax,
    hne, htype, hnan]

/-- C10 witness: the field with bounds 0 and 120 and the value `"abc"`. -/
theorem C10_nan_double_bound_witness :
    validateField defaultJsEnv c10Field (.vstr ("abc".toList)) [] =
      [⟨('n' :: []), ('m' :: 'i' :: 'n' :: []), ("too small".toList)⟩,
       ⟨('n' :: []), ('m' :: 'a' :: 'x' :: []), ("too big".toList)⟩] :=
  C10_nan_double_bound defaultJsEnv c10Field (.vstr ("abc".toList)) c10MinRule c10MaxRule []
    rfl rfl rfl rfl (by decide) (by decide)

/-- C2 counterexample: a field whose `showIf` is present but equal to the
empty string.  The truthiness guard `if (field.branching.showIf)` skips it,
so the field stays visible, while the evaluator's result on the (present)
`showIf` expression is `false` — visibility is *not* the evaluator's result,
refuting the claim as stated. -/
theorem C2_empty_showIf_counterexample :
    c2CexField.branching = some { showIf := some [], hideIf := none } ∧
    mapGet (resolveVisibility defaultJsEnv c2CexForm []) ['f'] = some true ∧
    mapGet (resolveVisibility defaultJsEnv c2CexForm []) ['f'] ≠
      some (evaluate defaultJsEnv [] []) := by decide

/-- C2 (amended): per-field visibility.  (1) A (non-empty) `hideIf` that
evaluates true forces visibility to false regardless of `showIf`;
(2) a present **non-empty** `showIf`, when no `hideIf` evaluates true, makes
visibility exactly the evaluator's result; (3) a field with neither
condition is visible. -/
theorem C2_visibility_rules (env : JsEnv) (field : FormField) (data : AnswerMap) :
    (∀ b h, field.branching = some b → b.hideIf = some h →
      evaluate env h data = true → isFieldVisible env field data = false) ∧
    (∀ b s, field.branching = some b → b.showIf = some s → s ≠ [] →
      (∀ h, b.hideIf = some h → evaluate env h data = false) →
      isFieldVisible env field data = evaluate env s data) ∧
    ((field.branching = none ∨
      ∃ b, field.branching = some b ∧ b.showIf = none ∧ b.hideIf = none) →
      isFieldVisible env field data = true) := by
  refine ⟨?_, ?_, ?_⟩
  · intro b h hb hh heval
    by_cases hnil : h = []
    · subst hnil
      rw [evaluate_nil] at heval
      cases heval
    · simp [isFieldVisible, hb, hh, hnil, heval]
  · intro b s hb hs hsne hhide
    simp only [isFieldVisible, hb, hs, if_neg hsne]
    cases hh : b.hideIf with
    | none => rfl
    | some h =>
      by_cases hnil : h = []
      · simp [hnil]
      · simp [hnil, hhide h hh]
  · intro hcase
    rcases hcase with hnone | ⟨b, hb, hsw, hhi⟩
    · simp [isFieldVisible, hnone]
    · simp [isFieldVisible, hb, hsw, hhi]

/-- C2 witness: with both `showIf` and `hideIf` evaluating true, `hideIf`
wins and the field is hidden. -/
theorem C2_visibility_rules_witness :
    isFieldVisible defaultJsEnv c2WitField [] = false :=
  (C2_visibility_rules defaultJsEnv c2WitField []).1 _ ("1 == 1".toList) rfl rfl (by decide)

/-- A character occurring in a string yields a singleton substring. -/
theorem includesSub_singleton_of_mem {s : Str} {c : Char} (hc : c ∈ s) :
    includesSub s [c] = true := by
  obtain ⟨l1, l2, rfl⟩ := List.append_of_mem hc
  apply List.any_eq_true.mpr
  refine ⟨c :: l2, ?_, ?_⟩
  · exact (List.mem_tails _ _).mpr ⟨l1, rfl⟩
  · simp [List.isPrefixOf]

/-- Characters of a global replacement come from the subject or the
replacement string. -/
theorem mem_replaceAllF {pat rep : Str} {c : Char} :
    ∀ (fuel : Nat) (s : Str), c ∈ replaceAllF pat rep fuel s → c ∈ s ∨ c ∈ rep := by
  intro fuel
  induction fuel with
  | zero => exact fun s h => Or.inl h
  | succ fuel ih =>
    intro s h
    match s with
    | [] => cases h
    | d :: rest =>
      rw [replaceAllF] at h
      by_cases hpre : pat ≠ [] ∧ pat.isPrefixOf (d :: rest)
      · rw [if_pos hpre] at h
        rcases List.mem_append.mp h with hrep | hrec
        · exact Or.inr hrep
        · rcases ih _ hrec with hs | hr
          · exact Or.inl (List.drop_subset _ _ hs)
          · exact Or.inr hr
      · rw [if_neg hpre] at h
        rcases List.mem_cons.mp h with rfl | hrec
        · exact Or.inl (List.mem_cons_self _ _)
        · rcases ih _ hrec with hs | hr
          · exact Or.inl (List.mem_cons_of_mem _ hs)
          · exact Or.inr hr

/-- Trimming only removes characters. -/
theorem mem_jsTrim {s : Str} {c : Char} (h : c ∈ jsTrim s) : c ∈ s := by
  unfold jsTrim at h
  rw [List.mem_reverse] at h
  have h1 := (List.dropWhile_sublist _).subset h
  rw [List.mem_reverse] at h1
  exact (List.dropWhile_sublist _).subset h1

/-- A string without `=`, `<`, `>` contains no operator match. -/
theorem findOperator_eq_none {s : Str}
    (h : ∀ c ∈ s, c ≠ '=' ∧ c ≠ '<' ∧ c ≠ '>') : findOperator s = none := by
  induction s with
  | nil => rfl
  | cons c rest ih =>
    obtain ⟨h1, h2, h3⟩ := h c (List.mem_cons_self _ _)
    have hrest : ∀ x ∈ rest, x ≠ '=' ∧ x ≠ '<' ∧ x ≠ '>' :=
      fun x hx => h x (List.mem_cons_of_mem _ hx)
    have h1b : ('=' == c) = false := by simp [Ne.symm h1]
    have h2b : ('<' == c) = false := by simp [Ne.symm h2]
    have h3b : ('>' == c) = false := by simp [Ne.symm h3]
    have hmatch : opMatchAt (c :: rest) = none := by
      rw [opMatchAt, List.find?_eq_none]
      intro op hop
      simp only [opAlternatives, List.mem_cons, List.mem_singleton, List.mem_nil_iff, or_false] at hop
      rcases hop with rfl | rfl | rfl | rfl | rfl | rfl | rfl
      · simp [List.isPrefixOf, h1b]
      · cases rest with
        | nil => simp [List.isPrefixOf]
        | cons d rest2 =>
          have hdb : ('=' == d) = false := by
            simp [Ne.symm (hrest d (List.mem_cons_self _ _)).1]
          simp [List.isPrefixOf, hdb]
      · simp [List.isPrefixOf, h3b]
      · simp [List.isPrefixOf, h2b]
      · simp [List.isPrefixOf, h3b]
      · simp [List.isPrefixOf, h2b]
      · simp [List.isPrefixOf, h1b]
    rw [findOperator, hmatch, ih hrest]

/-- C6: the evaluator fails safe.  (1) If the expression contains no
occurrence of any operator of `{==, !=, >=, <=, >, <, =}` (and the
environment's `today()` date is operator-free, as an ISO date is), the
evaluation is `false`; (2) if splitting the (substituted, trimmed)
expression around the first matching operator does not produce exactly two
operands, the evaluation is `false`.  The embedding itself is a total
function into `Bool`, mirroring the source's catch-all `return false`. -/
theorem C6_evaluate_fails_safe (env : JsEnv) (expression : Str) (data : AnswerMap) :
    ((∀ op ∈ opAlternatives, includesSub expression op = false) →
     (∀ op ∈ opAlternatives, includesSub env.todayStr op = false) →
     evaluate env expression data = false) ∧
    (∀ operator,
      findOperator (jsTrim (replaceSpecialFunctions env expression)) = some operator →
      (splitOnSub (jsTrim (replaceSpecialFunctions env expression)) operator).length ≠ 2 →
      evaluate env expression data = false) := by
  constructor
  · intro hexpr htoday
    have hchars : ∀ {t : Str}, (∀ op ∈ opAlternatives, includesSub t op = false) →
        ∀ c ∈ t, c ≠ '=' ∧ c ≠ '<' ∧ c ≠ '>' := by
      intro t ht c hc
      refine ⟨?_, ?_, ?_⟩ <;> rintro rfl
      · have h := ht ['='] (by simp [opAlternatives])
        rw [includesSub_singleton_of_mem hc] at h
        cases h
      · have h := ht ['<'] (by simp [opAlternatives])
        rw [includesSub_singleton_of_mem hc] at h
        cases h
      · have h := ht ['>'] (by simp [opAlternatives])
        rw [includesSub_singleton_of_mem hc] at h
        cases h
    have hsub : ∀ c ∈ replaceSpecialFunctions env expression, c ≠ '=' ∧ c ≠ '<' ∧ c ≠ '>' := by
      intro c hc
      unfold replaceSpecialFunctions at hc
      by_cases hinc : includesSub expression ("today()".toList) = true
      · rw [if_pos hinc] at hc
        rcases mem_replaceAllF _ _ hc with hs | hr
        · exact hchars hexpr c hs
        · rcases List.mem_cons.mp hr with rfl | hr2
          · exact ⟨by decide, by decide, by decide⟩
          · rcases List.mem_append.mp hr2 with htod | hq
            · exact hchars htoday c htod
            · rcases List.mem_singleton.mp hq with rfl
              exact ⟨by decide, by decide, by decide⟩
      · rw [if_neg hinc] at hc
        exact hchars hexpr c hc
    have hfind : findOperator (jsTrim (replaceSpecialFunctions env expression)) = none :=
      findOperator_eq_none (fun c hc => hsub c (mem_jsTrim hc))
    simp [evaluate, parseExpression, hfind]
  · intro operator hfind hlen
    simp [evaluate, parseExpression, hfind, hlen]

/-- C6 witness: an operator-free expression evaluates to false, and an
expression with two operator occurrences (three split parts) evaluates to
false. -/
theorem C6_evaluate_fails_safe_witness :
    evaluate defaultJsEnv ("hello world".toList) [] = false ∧
    evaluate defaultJsEnv ("a == b == c".toList) [] = false :=
  ⟨(C6_evaluate_fails_safe defaultJsEnv ("hello world".toList) []).1
     (by decide) (by decide),
   (C6_evaluate_fails_safe defaultJsEnv ("a == b == c".toList) []).2
     ('=' :: '=' :: []) (by decide) (by decide)⟩

/-- Lookup for a key other than the updated one ignores an in-place map
update. -/
theorem find?_mapUpdate_ne {α : Type} (k q : Str) (v : α) (hq : q ≠ k) (m : List (Str × α)) :
    (m.map (fun r => if r.1 = k then (k, v) else r)).find? (fun r => decide (r.1 = q)) =
      m.find? (fun r => decide (r.1 = q)) := by
  induction m with
  | nil => rfl
  | cons p rest ih =>
    rw [List.map_cons]
    by_cases hp : p.1 = k
    · rw [if_pos hp]
      simp only [List.find?_cons]
      have h1 : (k = q) = False := eq_false (Ne.symm hq)
      have h2 : (p.1 = q) = False := eq_false (by rw [hp]; exact Ne.symm hq)
      simp [h1, h2, ih]
    · rw [if_neg hp]
      simp only [List.find?_cons]
      by_cases hpq : p.1 = q
      · simp [hpq]
      · simp [eq_false hpq, ih]

/-- Lookup for a key other than the appended one ignores an append. -/
theorem find?_append_ne {α : Type} (k q : Str) (v : α) (hq : q ≠ k) (m : List (Str × α)) :
    (m ++ [(k, v)]).find? (fun r => decide (r.1 = q)) = m.find? (fun r => decide (r.1 = q)) := by
  induction m with
  | nil =>
    simp only [List.nil_append, List.find?_cons]
    simp [eq_false (Ne.symm hq), List.find?]
  | cons p rest ih =>
    rw [List.cons_append]
    simp only [List.find?_cons]
    by_cases hpq : p.1 = q
    · simp [hpq]
    · simp [eq_false hpq, ih]

/-- Lookup of the updated key finds the new value when it was present. -/
theorem find?_mapUpdate_self {α : Type} (k : Str) (v : α) (m : List (Str × α))
    (hany : m.any (fun p => decide (p.1 = k)) = true) :
    (m.map (fun r => if r.1 = k then (k, v) else r)).find? (fun r => decide (r.1 = k)) =
      some (k, v) := by
  induction m with
  | nil =>
    rw [List.any_nil] at hany
    exact absurd hany (by simp)
  | cons p rest ih =>
    rw [List.map_cons]
    by_cases hp : p.1 = k
    · rw [if_pos hp]
      simp [List.find?_cons]
    · have hrest : rest.any (fun p => decide (p.1 = k)) = true := by
        rwa [List.any_cons, decide_eq_false hp, Bool.false_or] at hany
      rw [if_neg hp]
      simp only [List.find?_cons]
      simp [eq_false hp, ih hrest]

/-- Lookup of the appended key finds the new value when it was absent. -/
theorem find?_append_self {α : Type} (k : Str) (v : α) (m : List (Str × α))
    (hany : m.any (fun p => decide (p.1 = k)) = false) :
    (m ++ [(k, v)]).find? (fun r => decide (r.1 = k)) = some (k, v) := by
  induction m with
  | nil => simp [List.find?_cons]
  | cons p rest ih =>
    rw [List.any_cons, Bool.or_eq_false_iff] at hany
    have hp : (p.1 = k) = False := by
      simpa using hany.1
    rw [List.cons_append]
    simp only [List.find?_cons]
    simp [hp, ih hany.2]

/-- Characterisation of `Map.set` lookups. -/
theorem mapGet_jsMapSet {α : Type} (m : List (Str × α)) (k : Str) (v : α) (q : Str) :
    mapGet (jsMapSet m k v) q = if q = k then some v else mapGet m q := by
  by_cases hany : m.any (fun p => decide (p.1 = k)) = true
  · rw [jsMapSet, if_pos hany]
    by_cases hq : q = k
    · subst hq
      rw [if_pos rfl]
      unfold mapGet
      rw [find?_mapUpdate_self q v m hany]
      rfl
    · rw [if_neg hq]
      unfold mapGet
      rw [find?_mapUpdate_ne k q v hq m]
  · rw [jsMapSet, if_neg hany]
    by_cases hq : q = k
    · subst hq
      rw [if_pos rfl]
      unfold mapGet
      rw [find?_append_self q v m (by rwa [Bool.not_eq_true] at hany)]
      rfl
    · rw [if_neg hq]
      unfold mapGet
      rw [find?_append_ne k q v hq m]

/-- The dependency-graph fold leaves keys not named by the remaining fields
untouched. -/
theorem buildGo_get_of_forall_ne (fields : List FormField) (m : List (Str × List Str)) (k : Str)
    (h : ∀ f ∈ fields, f.id ≠ k) :
    mapGet (fields.foldl
      (fun dependencies field =>
        jsMapSet dependencies field.id (dedupKeepFirst (fieldDeps field))) m) k = mapGet m k := by
  induction fields generalizing m with
  | nil => rfl
  | cons g rest ih =>
    rw [List.foldl_cons, ih _ (fun f hf => h f (List.mem_cons_of_mem _ hf))]
    rw [mapGet_jsMapSet, if_neg (Ne.symm (h g (List.mem_cons_self _ _)))]

/-- With unique ids, the dependency-graph fold maps a field to its
deduplicated dependency list. -/
theorem buildGo_get_self (fields : List FormField) (m : List (Str × List Str)) (f : FormField)
    (hf : f ∈ fields) (hnodup : (fields.map (fun g => g.id)).Nodup) :
    mapGet (fields.foldl
      (fun dependencies field =>
        jsMapSet dependencies field.id (dedupKeepFirst (fieldDeps field))) m) f.id =
      some (dedupKeepFirst (fieldDeps f)) := by
  induction fields generalizing m with
  | nil => cases hf
  | cons g rest ih =>
    rw [List.foldl_cons]
    rcases List.mem_cons.mp hf with rfl | hmem
    · have hrest : ∀ x ∈ rest, x.id ≠ f.id := by
        intro x hx he
        exact (List.nodup_cons.mp hnodup).1 (by simpa [he] using List.mem_map_of_mem (fun g => g.id) hx)
      rw [buildGo_get_of_forall_ne _ _ _ hrest, mapGet_jsMapSet, if_pos rfl]
    · exact ih _ hmem (List.nodup_cons.mp hnodup).2

/-- The dependency-graph fold preserves key presence. -/
theorem buildGo_preserves (fields : List FormField) (m : List (Str × List Str)) (k : Str)
    (h : ∃ v, mapGet m k = some v) :
    ∃ v, mapGet (fields.foldl
      (fun dependencies field =>
        jsMapSet dependencies field.id (dedupKeepFirst (fieldDeps field))) m) k = some v := by
  induction fields generalizing m with
  | nil => exact h
  | cons g rest ih =>
    rw [List.foldl_cons]
    apply ih
    rw [mapGet_jsMapSet]
    by_cases hk : k = g.id
    · exact ⟨_, if_pos hk⟩
    · obtain ⟨v, hv⟩ := h
      exact ⟨v, by rw [if_neg hk]; exact hv⟩

/-- Every listed field's id is a key of the dependency-graph fold. -/
theorem buildGo_key_exists (fields : List FormField) (m : List (Str × List Str)) (f : FormField)
    (hf : f ∈ fields) :
    ∃ v, mapGet (fields.foldl
      (fun dependencies field =>
        jsMapSet dependencies field.id (dedupKeepFirst (fieldDeps field))) m) f.id = some v := by
  induction fields generalizing m with
  | nil => cases hf
  | cons g rest ih =>
    rw [List.foldl_cons]
    rcases List.mem_cons.mp hf with rfl | hmem
    · apply buildGo_preserves
      rw [mapGet_jsMapSet, if_pos rfl]
      exact ⟨_, rfl⟩
    · exact ih _ hmem

/-- Membership in `dedupGo`. -/
theorem mem_dedupGo (x : Str) :
    ∀ (xs seen : List Str), x ∈ dedupGo seen xs ↔ x ∈ xs ∧ x ∉ seen := by
  intro xs
  induction xs with
  | nil => intro seen; simp [dedupGo]
  | cons y rest ih =>
    intro seen
    rw [dedupGo]
    by_cases hy : y ∈ seen
    · rw [if_pos hy, ih]
      constructor
      · rintro ⟨hr, hs⟩
        exact ⟨List.mem_cons_of_mem _ hr, hs⟩
      · rintro ⟨hc, hs⟩
        rcases List.mem_cons.mp hc with rfl | hr
        · exact absurd hy hs
        · exact ⟨hr, hs⟩
    · rw [if_neg hy]
      constructor
      · intro hc
        rcases List.mem_cons.mp hc with rfl | hr
        · exact ⟨List.mem_cons_self _ _, hy⟩
        · obtain ⟨h1, h2⟩ := (ih _).mp hr
          exact ⟨List.mem_cons_of_mem _ h1, fun hs => h2 (List.mem_cons_of_mem _ hs)⟩
      · rintro ⟨hc, hs⟩
        rcases List.mem_cons.mp hc with rfl | hr
        · exact List.mem_cons_self _ _
        · by_cases hxy : x = y
          · exact hxy ▸ List.mem_cons_self _ _
          · exact List.mem_cons_of_mem _ ((ih _).mpr
              ⟨hr, fun hm => by
                rcases List.mem_cons.mp hm with h | h
                · exact hxy h
                · exact hs h⟩)

/-- `[...new Set(xs)]` has the same members as `xs`. -/
theorem mem_dedupKeepFirst (x : Str) (xs : List Str) :
    x ∈ dedupKeepFirst xs ↔ x ∈ xs := by
  rw [dedupKeepFirst, mem_dedupGo]
  simp

/-- Membership under the empty-string guard equals plain reference
membership (the empty expression has no references). -/
theorem mem_ite_refs (s : Str) (x : Str) :
    x ∈ (if s = ([] : Str) then ([] : List Str) else extractFieldReferences s) ↔
      x ∈ extractFieldReferences s := by
  by_cases h : s = ([] : Str)
  · subst h
    simp [show extractFieldReferences [] = [] from rfl]
  · rw [if_neg h]

/-- A non-emptiness conjunct next to reference membership is redundant (the
empty expression has no references). -/
theorem nonnil_and_mem_refs (s x : Str) :
    ((¬ s = ([] : Str)) ∧ x ∈ extractFieldReferences s) ↔ x ∈ extractFieldReferences s := by
  constructor
  · exact And.right
  · intro hx
    refine ⟨?_, hx⟩
    rintro rfl
    rw [show extractFieldReferences [] = [] from rfl] at hx
    cases hx

/-- The pushed dependency list of a field, characterised: references of its
`showIf`, of its `hideIf`, and of each rule condition without the field's
own id. -/
theorem mem_fieldDeps (f : FormField) (x : Str) :
    x ∈ fieldDeps f ↔
      ((∃ b s, f.branching = some b ∧ b.showIf = some s ∧ x ∈ extractFieldReferences s) ∨
       (∃ b h, f.branching = some b ∧ b.hideIf = some h ∧ x ∈ extractFieldReferences h) ∨
       (∃ r c, (∃ rules, f.validation = some rules ∧ r ∈ rules) ∧ r.condition = some c ∧
          x ∈ extractFieldReferences c ∧ x ≠ f.id)) := by
  have hrule : ∀ r : ValidationRule,
      (x ∈ (match r.condition with
            | some c =>
              if c = ([] : Str) then ([] : List Str)
              else (extractFieldReferences c).filter (fun ref => ref ≠ f.id)
            | none => ([] : List Str))) ↔
        (∃ c, r.condition = some c ∧ x ∈ extractFieldReferences c ∧ x ≠ f.id) := by
    intro r
    cases hc : r.condition with
    | none => simp
    | some c =>
      by_cases hcn : c = ([] : Str)
      · subst hcn
        simp [show extractFieldReferences [] = [] from rfl]
      · simp [hcn, List.mem_filter]
  simp only [ne_eq, decide_not] at hrule
  unfold fieldDeps
  cases hb : f.branching with
  | none =>
    cases hv : f.validation with
    | none => simp
    | some rules =>
      simp [List.mem_flatMap, List.mem_append, hrule]
  | some b =>
    cases hsw : b.showIf <;> cases hhi : b.hideIf <;> cases hv : f.validation <;>
      simp [hsw, hhi, hv, mem_ite_refs, nonnil_and_mem_refs, List.mem_flatMap,
        List.mem_append, hrule]

/-- C5: every field of the form appears as a key of `buildDependencyGraph`,
and (for well-formed forms with unique ids) its dependency set is the union
of references extracted from its `showIf`, its `hideIf`, and each of its
validation-rule conditions — the field's own id excluded from rule-condition
references but not from branching references. -/
theorem C5_dependency_graph (form : FormDSL) (f : FormField) (hf : f ∈ getAllFields form) :
    (∃ deps, mapGet (buildDependencyGraph form) f.id = some deps) ∧
    (((getAllFields form).map (fun g => g.id)).Nodup →
      ∀ x, x ∈ (mapGet (buildDependencyGraph form) f.id).getD [] ↔
        ((∃ b s, f.branching = some b ∧ b.showIf = some s ∧ x ∈ extractFieldReferences s) ∨
         (∃ b h, f.branching = some b ∧ b.hideIf = some h ∧ x ∈ extractFieldReferences h) ∨
         (∃ r c, (∃ rules, f.validation = some rules ∧ r ∈ rules) ∧ r.condition = some c ∧
            x ∈ extractFieldReferences c ∧ x ≠ f.id))) := by
  constructor
  · exact buildGo_key_exists _ _ _ hf
  · intro hnodup x
    rw [show buildDependencyGraph form =
        (getAllFields form).foldl
          (fun dependencies field =>
            jsMapSet dependencies field.id (dedupKeepFirst (fieldDeps field))) [] from rfl,
      buildGo_get_self _ _ _ hf hnodup]
    rw [Option.getD_some, mem_dedupKeepFirst, mem_fieldDeps]

/-- C5 witness: in the C1 form, `field_cigs` depends exactly on
`field_smoker`, via its `showIf` reference. -/
theorem C5_dependency_graph_witness :
    ("field_smoker".toList) ∈ (mapGet (buildDependencyGraph c1Form) (("field_cigs".toList))).getD [] :=
  ((C5_dependency_graph c1Form c1Cigs
      (List.mem_cons_of_mem _ (List.mem_cons_self _ _))).2 (by decide) (("field_smoker".toList))).mpr
    (Or.inl ⟨_, _, rfl, rfl, by decide⟩)

/-- C9 counterexample: a shape-valid form whose only defect is a validation
rule whose condition references the non-existent field `ghost`.  The
pipeline reports it — but with code `invalid_reference`, not the
`invalid_field_reference` code the claim names (that code is used only for
dangling *branching* references). -/
theorem C9_rule_reference_code_counterexample :
    validateZodSchema c9Json = [] ∧
    validateFormDefinition c9Json =
      .ok [⟨['a'], ("invalid_reference".toList),
            ("Validation rule references non-existent field: ghost".toList)⟩] ∧
    (∀ e ∈ validateFormChecks c9Form, e.code ≠ ("invalid_field_reference".toList)) ∧
    (∃ e ∈ validateFormChecks c9Form, e.code = ("invalid_reference".toList)) := by
  refine ⟨by decide, by decide, by decide, ?_⟩
  exact ⟨⟨['a'], ("invalid_reference".toList),
    ("Validation rule references non-existent field: ghost".toList)⟩, by decide, rfl⟩

/-- C9 (amended): a validation rule whose condition references a
non-existent field makes the authoring-time checks emit an error for that
field with code `invalid_reference` (the published `invalid_field_reference`
code is reserved for branching references). -/
theorem C9_rule_reference_error (form : FormDSL) (f : FormField) (r : ValidationRule)
    (c : Str) (ref : Str)
    (hf : f ∈ getAllFields form)
    (hr : r ∈ f.validation.getD [])
    (hc : r.condition = some c)
    (href : ref ∈ extractFieldReferences c)
    (hdangling : ref ∉ (getAllFields form).map (fun g => g.id)) :
    ∃ e ∈ validateFormChecks form, e.path = f.id ∧ e.code = ("invalid_reference".toList) := by
  have hcn : ¬ c = ([] : Str) := by
    rintro rfl
    rw [show extractFieldReferences [] = [] from rfl] at href
    cases href
  have hrules : ∃ rules, f.validation = some rules ∧ r ∈ rules := by
    cases hv : f.validation with
    | none => rw [hv] at hr; cases hr
    | some rules => exact ⟨rules, rfl, by rwa [hv] at hr⟩
  obtain ⟨rules, hv, hrr⟩ := hrules
  refine ⟨⟨f.id, ("invalid_reference".toList),
    ("Validation rule references non-existent field: ".toList) ++ ref⟩, ?_, rfl, rfl⟩
  unfold validateFormChecks
  refine List.mem_append_left _ (List.mem_append_right _ ?_)
  unfold validateValidationRules
  refine List.mem_flatMap.mpr ⟨f, hf, List.mem_append_left _ ?_⟩
  unfold validateRuleReferences
  rw [hv]
  refine List.mem_flatMap.mpr ⟨r, hrr, ?_⟩
  simp only [hc]
  rw [if_neg hcn]
  refine List.mem_map.mpr ⟨ref, ?_, rfl⟩
  refine List.mem_filter.mpr ⟨href, ?_⟩
  simpa using hdangling

/-- C9 witness: the concrete `ghost` form yields such an error. -/
theorem C9_rule_reference_error_witness :
    ∃ e ∈ validateFormChecks c9Form, e.path = ['a'] ∧ e.code = ("invalid_reference".toList) :=
  C9_rule_reference_error c9Form c9Field
    { rule := .requiredIf, condition := some ("ghost == 1".toList), message := ('m' :: []) }
    ("ghost == 1".toList) ("ghost".toList)
    (List.mem_cons_self _ _) (List.mem_cons_self _ _) rfl (by decide) (by decide)

/-- C7 counterexample: a form that passes `validateFormDefinition` with zero
errors (one number field with a `min 5` rule) and an answer map satisfying
all of the claim's premises vacuously (no select fields, no
required/requiredIf rules), on which `validateField` still returns an
error — the claim forgot `min`/`max`/`regex`/`cross_field` rules. -/
theorem C7_roundtrip_counterexample :
    validateFormDefinition c7Json = .ok [] ∧
    validateFormChecks c7Form = [] ∧
    (∀ f ∈ getAllFields c7Form, ∀ r ∈ f.validation.getD [],
      r.rule ≠ .required ∧ r.rule ≠ .requiredIf) ∧
    (∀ f ∈ getAllFields c7Form, f.type ≠ .singleSelect ∧ f.type ≠ .multiselect) ∧
    validateField defaultJsEnv c7Field (.vnum (.q 3 1)) [(['n'], .vnum (.q 3 1))] =
      [⟨['n'], ('m' :: 'i' :: 'n' :: []), ('m' :: [])⟩] := by
  refine ⟨by decide, by decide, by decide, by decide, by decide⟩

/-- C7 (amended): for forms whose rules are only `required`/`requiredIf`,
passing authoring-time validation with zero errors and populating every
`required` field and every `requiredIf` field whose condition holds (with
every select value drawn from its options) makes `validateField` return no
error for any field. -/
theorem C7_roundtrip (env : JsEnv) (form : FormDSL) (data : AnswerMap)
    (_hchecks : validateFormChecks form = [])
    (hrules : ∀ f ∈ getAllFields form, ∀ r ∈ f.validation.getD [],
      r.rule = .required ∨ r.rule = .requiredIf)
    (_hopts : ∀ f ∈ getAllFields form, (f.type = .singleSelect ∨ f.type = .multiselect) →
      valInOptions (f.options.getD []) (getProp data f.id) = true)
    (hreq : ∀ f ∈ getAllFields form, ∀ r ∈ f.validation.getD [],
      (r.rule = .required → isEmpty (getProp data f.id) = false) ∧
      (r.rule = .requiredIf → ∀ c ∈ r.condition.toList,
        evaluate env c data = true → isEmpty (getProp data f.id) = false)) :
    ∀ f ∈ getAllFields form, validateField env f (getProp data f.id) data = [] := by
  intro f hf
  unfold validateField
  cases hv : f.validation with
  | none => rfl
  | some rules =>
    rw [List.filterMap_eq_nil_iff]
    intro r hr
    have hkind := hrules f hf r (by rw [hv]; exact hr)
    have hreqf := hreq f hf r (by rw [hv]; exact hr)
    rcases hkind with hk | hk
    · simp [validateRule, hk, validateRequired, hreqf.1 hk]
    · have h2 := hreqf.2 hk
      cases hc : r.condition with
      | none => simp [validateRule, hk, validateRequiredIf, hc]
      | some c =>
        by_cases hcn : c = ([] : Str)
        · simp [validateRule, hk, validateRequiredIf, hc, hcn]
        · by_cases hev : evaluate env c data = true
          · have hne := h2 c (by rw [hc]; exact List.mem_cons_self _ _) hev
            simp [validateRule, hk, validateRequiredIf, hc, hcn, hne]
          · simp [validateRule, hk, validateRequiredIf, hc, hcn, eq_false_of_ne_true hev]

/-- C7 witness: the C1 form with the smoker answered `Yes` and the
cigarette count populated validates cleanly field by field. -/
theorem C7_roundtrip_witness :
    validateField defaultJsEnv c1Cigs (getProp c1FullData c1Cigs.id) c1FullData = [] :=
  C7_roundtrip defaultJsEnv c1Form c1FullData (by decide) (by decide) (by decide) (by decide)
    c1Cigs (List.mem_cons_of_mem _ (List.mem_cons_self _ _))

/-- An element of a chain reflexively-transitively reaches the chain's last
element. -/
theorem chain_reaches_last {R : Str → Str → Prop} :
    ∀ (l : List Str) (x last : Str), List.Chain' R l → x ∈ l → l.getLast? = some last →
      Relation.ReflTransGen R x last := by
  intro l
  induction l with
  | nil => intro x last _ hx _; cases hx
  | cons y rest ih =>
    intro x last hchain hx hlast
    cases rest with
    | nil =>
      rcases List.mem_singleton.mp hx with rfl
      simp only [List.getLast?_singleton, Option.some.injEq] at hlast
      exact hlast ▸ Relation.ReflTransGen.refl
    | cons z rest2 =>
      obtain ⟨hyz, hchain2⟩ := List.chain'_cons.mp hchain
      have hlast2 : (z :: rest2).getLast? = some last := by
        rwa [List.getLast?_cons_cons] at hlast
      rcases List.mem_cons.mp hx with rfl | hx2
      · exact Relation.ReflTransGen.head hyz
          (ih z last hchain2 (List.mem_cons_self _ _) hlast2)
      · exact ih x last hchain2 hx2 hlast2

/-- Under an acyclic graph, the cycle-detection DFS never records a cycle:
the recursion stack is a chain of edges ending at the current node, so a
stack hit would close a genuine cycle. -/
theorem detectCycleGo_no_cycles (graph : List (Str × List Str))
    (hacyc : AcyclicGraph graph) :
    ∀ (fuel : Nat) (fieldId : Str) (path : List Str) (st : DfsState),
      List.Chain' (graphEdge graph) (path ++ [fieldId]) →
      (detectCycleGo graph fuel fieldId path st).cycles = st.cycles := by
  intro fuel
  induction fuel with
  | zero => intro _ _ st _; rfl
  | succ fuel ih =>
    intro fieldId path st hchain
    simp only [detectCycleGo]
    have hfold : ∀ (deps : List Str) (st' : DfsState),
        (∀ dep ∈ deps, graphEdge graph fieldId dep) →
        st'.cycles = st.cycles →
        (deps.foldl (fun st dep =>
            if dep ∈ st.visited then
              if dep ∈ path ++ [fieldId] then
                ⟨st.visited,
                 st.cycles ++ [((path ++ [fieldId]).drop (idxOf dep (path ++ [fieldId]))) ++ [dep]]⟩
              else st
            else detectCycleGo graph fuel dep (path ++ [fieldId]) st) st').cycles = st.cycles := by
      intro deps
      induction deps with
      | nil => intro st' _ h; exact h
      | cons dep rest ihd =>
        intro st' hdeps h
        rw [List.foldl_cons]
        apply ihd _ (fun d hd => hdeps d (List.mem_cons_of_mem _ hd))
        by_cases hvis : dep ∈ st'.visited
        · rw [if_pos hvis]
          by_cases hpath : dep ∈ path ++ [fieldId]
          · exfalso
            have hrtg : Relation.ReflTransGen (graphEdge graph) dep fieldId :=
              chain_reaches_last _ dep fieldId hchain hpath (List.getLast?_concat _)
            exact hacyc dep (Relation.TransGen.tail' hrtg
              (hdeps dep (List.mem_cons_self _ _)))
          · rw [if_neg hpath]
            exact h
        · rw [if_neg hvis]
          rw [ih dep (path ++ [fieldId]) st' ?_]
          · exact h
          · rw [List.chain'_append]
            refine ⟨hchain, List.chain'_singleton _, ?_⟩
            intro x hx y hy
            rw [List.getLast?_concat] at hx
            simp only [List.head?_cons, Option.mem_def, Option.some.injEq] at hx hy
            rw [← hx, ← hy] at *
            exact hx ▸ hy ▸ hdeps dep (List.mem_cons_self _ _)
    exact hfold _ _ (fun dep hd => hd) rfl

/-- C4: cycle detection.  (1) On every form whose dependency graph is the
mutual two-field graph `a → b, b → a`, `detectCircularDependencies` returns
a non-empty cycle list with a cycle containing both fields; (2) on every
form with an acyclic dependency graph it returns no cycles. -/
theorem C4_cycle_detection :
    (∀ form : FormDSL,
      buildDependencyGraph form = [(['a'], [['b']]), (['b'], [['a']])] →
      detectCircularDependencies form ≠ [] ∧
      ∃ cyc ∈ detectCircularDependencies form, ['a'] ∈ cyc ∧ ['b'] ∈ cyc) ∧
    (∀ form : FormDSL, AcyclicGraph (buildDependencyGraph form) →
      detectCircularDependencies form = []) := by
  constructor
  · intro form hgraph
    have heq : detectCircularDependencies form = [[['a'], ['b'], ['a']]] := by
      unfold detectCircularDependencies
      rw [hgraph]
      rfl
    rw [heq]
    exact ⟨by simp, [['a'], ['b'], ['a']], by simp, by simp, by simp⟩
  · intro form hacyc
    unfold detectCircularDependencies
    have hfold : ∀ (keys : List Str) (st : DfsState), st.cycles = [] →
        (keys.foldl (fun st fieldId =>
          if fieldId ∈ st.visited then st
          else detectCycleGo (buildDependencyGraph form) (dfsFuel (buildDependencyGraph form))
            fieldId [] st) st).cycles = [] := by
      intro keys
      induction keys with
      | nil => intro st h; exact h
      | cons k rest ihk =>
        intro st h
        rw [List.foldl_cons]
        apply ihk
        by_cases hvis : k ∈ st.visited
        · rw [if_pos hvis]; exact h
        · rw [if_neg hvis]
          rw [detectCycleGo_no_cycles _ hacyc _ _ _ _ (by simp)]
          exact h
    exact hfold _ _ rfl

/-- A graph with no edges at all is acyclic. -/
theorem acyclic_of_no_edges (graph : List (Str × List Str))
    (h : ∀ x y, ¬ graphEdge graph x y) : AcyclicGraph graph := by
  intro x htc
  cases htc with
  | single h1 => exact h _ _ h1
  | tail _ h1 => exact h _ _ h1

/-- The one-field dependency graph has no edges. -/
theorem c4AcyclicForm_acyclic : AcyclicGraph (buildDependencyGraph c4AcyclicForm) := by
  apply acyclic_of_no_edges
  intro x y hy
  have hg : buildDependencyGraph c4AcyclicForm = [(['a'], [])] := by decide
  unfold graphEdge at hy
  rw [hg] at hy
  unfold graphGet mapGet at hy
  by_cases hx : (['a'] : Str) = x
  · simp [List.find?, hx] at hy
  · simp [List.find?, hx] at hy

/-- C4 witness: the mutual form yields the cycle `[a, b, a]`; the one-field
form yields none. -/
theorem C4_cycle_detection_witness :
    (detectCircularDependencies c4MutualForm ≠ [] ∧
     ∃ cyc ∈ detectCircularDependencies c4MutualForm, ['a'] ∈ cyc ∧ ['b'] ∈ cyc) ∧
    detectCircularDependencies c4AcyclicForm = [] :=
  ⟨C4_cycle_detection.1 c4MutualForm (by decide),
   C4_cycle_detection.2 c4AcyclicForm c4AcyclicForm_acyclic⟩

/-- Membership after `Set.add`. -/
theorem mem_setAdd (x y : Str) (s : List Str) : y ∈ setAdd x s ↔ y ∈ s ∨ y = x := by
  by_cases h : x ∈ s
  · rw [setAdd, if_pos h]
    constructor
    · exact Or.inl
    · rintro (hy | rfl)
      · exact hy
      · exact h
  · rw [setAdd, if_neg h]
    simp

/-- The first index is stable under appending on the right. -/
theorem idxOf_append_left (x : Str) (l l2 : List Str) (h : x ∈ l) :
    idxOf x (l ++ l2) = idxOf x l := by
  induction l with
  | nil => cases h
  | cons y rest ih =>
    rw [List.cons_append, idxOf, idxOf]
    by_cases hxy : y = x
    · rw [if_pos hxy, if_pos hxy]
    · rw [if_neg hxy, if_neg hxy, ih]
      rcases List.mem_cons.mp h with rfl | hr
      · exact absurd rfl hxy
      · exact hr

/-- The index of a freshly appended element is the old length. -/
theorem idxOf_append_self (x : Str) (l : List Str) (h : x ∉ l) :
    idxOf x (l ++ [x]) = l.length := by
  induction l with
  | nil => simp [idxOf]
  | cons y rest ih =>
    have hxy : ¬ y = x := fun he => h (he ▸ List.mem_cons_self _ _)
    rw [List.cons_append, idxOf, if_neg hxy, List.length_cons,
      ih (fun hr => h (List.mem_cons_of_mem _ hr))]

/-- A member's first index is below the length. -/
theorem idxOf_lt_length (x : Str) (l : List Str) (h : x ∈ l) : idxOf x l < l.length := by
  induction l with
  | nil => cases h
  | cons y rest ih =>
    rw [idxOf]
    by_cases hxy : y = x
    · rw [if_pos hxy]
      simp
    · rw [if_neg hxy, List.length_cons]
      have hr : x ∈ rest := by
        rcases List.mem_cons.mp h with rfl | hr
        · exact absurd rfl hxy
        · exact hr
      exact Nat.succ_lt_succ (ih hr)

/-- A dependency entry is among the graph's id occurrences. -/
theorem graphGet_mem_allIds (graph : List (Str × List Str)) (x dep : Str)
    (h : dep ∈ graphGet graph x) : dep ∈ allIds graph := by
  unfold graphGet at h
  cases hm : mapGet graph x with
  | none => rw [hm] at h; cases h
  | some deps =>
    rw [hm] at h
    obtain ⟨p, hfind, hp2⟩ := Option.map_eq_some'.mp hm
    have hpm : p ∈ graph := List.mem_of_find?_eq_some hfind
    exact List.mem_append_right _ (List.mem_flatMap.mpr ⟨p, hpm, hp2 ▸ h⟩)

/-- A present key is among the graph's id occurrences. -/
theorem mapGet_some_mem_allIds (graph : List (Str × List Str)) (k : Str)
    (h : ∃ v, mapGet graph k = some v) : k ∈ allIds graph := by
  obtain ⟨v, hv⟩ := h
  obtain ⟨p, hfind, _⟩ := Option.map_eq_some'.mp hv
  have hpm : p ∈ graph := List.mem_of_find?_eq_some hfind
  have hpk : p.1 = k := by
    have := List.find?_some hfind
    simpa using this
  exact List.mem_append_left _ (hpk ▸ List.mem_map_of_mem _ hpm)

/-- The unvisited count is antitone in the visited set. -/
theorem countNV_le_of_subset (graph : List (Str × List Str)) {v w : List Str}
    (h : ∀ x ∈ v, x ∈ w) : countNV graph w ≤ countNV graph v := by
  apply List.Sublist.length_le
  apply List.monotone_filter_right
  intro a ha
  rw [decide_eq_true_eq] at ha ⊢
  exact fun hav => ha (h a hav)

/-- Strict decrease of the unvisited count when a graph id becomes
visited. -/
theorem countNV_lt (graph : List (Str × List Str)) {v w : List Str} (k : Str)
    (hsub : ∀ x ∈ v, x ∈ w) (hall : k ∈ allIds graph) (hkw : k ∈ w) (hkv : k ∉ v) :
    countNV graph w < countNV graph v := by
  have hsl : List.Sublist ((allIds graph).filter (fun x => decide (x ∉ w)))
      ((allIds graph).filter (fun x => decide (x ∉ v))) := by
    apply List.monotone_filter_right
    intro a ha
    rw [decide_eq_true_eq] at ha ⊢
    exact fun hav => ha (hsub a hav)
  have hle := hsl.length_le
  by_contra hcon
  push_neg at hcon
  have heq : countNV graph w = countNV graph v := Nat.le_antisymm hle hcon
  have hl := hsl.eq_of_length heq
  have hk : k ∈ (allIds graph).filter (fun x => decide (x ∉ v)) :=
    List.mem_filter.mpr ⟨hall, by simp [hkv]⟩
  rw [← hl] at hk
  have hk2 := (List.mem_filter.mp hk).2
  simp [hkw] at hk2

/-- Full specification of one `visit` call of the evaluation-order DFS, for
an acyclic graph: the order grows only by previously unvisited ids, the
visited set grows monotonically and absorbs the visited node, visited ids
are exactly the emitted ids plus the ancestor set, the emitted order stays
duplicate-free, and every emitted id appears after all of its
dependencies. -/
theorem visitGo_spec (graph : List (Str × List Str)) (hacyc : AcyclicGraph graph) :
    ∀ (fuel : Nat) (fid : Str) (st : TopoState) (A : List Str),
      fid ∈ allIds graph →
      countNV graph st.visited < fuel →
      (∀ a ∈ A, Relation.TransGen (graphEdge graph) a fid) →
      (∀ x, x ∈ st.visited ↔ (x ∈ st.order ∨ x ∈ A)) →
      st.order.Nodup →
      (∀ x ∈ st.order, ∀ y ∈ graphGet graph x,
        y ∈ st.order ∧ idxOf y st.order < idxOf x st.order) →
      (∃ t, (visitGo graph fuel fid st).order = st.order ++ t ∧ ∀ z ∈ t, z ∉ st.visited) ∧
      (∀ x ∈ st.visited, x ∈ (visitGo graph fuel fid st).visited) ∧
      fid ∈ (visitGo graph fuel fid st).visited ∧
      (∀ x, x ∈ (visitGo graph fuel fid st).visited ↔
        (x ∈ (visitGo graph fuel fid st).order ∨ x ∈ A)) ∧
      (visitGo graph fuel fid st).order.Nodup ∧
      (∀ x ∈ (visitGo graph fuel fid st).order, ∀ y ∈ graphGet graph x,
        y ∈ (visitGo graph fuel fid st).order ∧
          idxOf y (visitGo graph fuel fid st).order < idxOf x (visitGo graph fuel fid st).order) := by
  intro fuel
  induction fuel with
  | zero =>
    intro fid st A _ hm _ _ _ _
    exact absurd hm (Nat.not_lt_zero _)
  | succ fuel ih =>
    intro fid st A hfid hm hAr hInv hNodup hP
    by_cases hvis : fid ∈ st.visited
    · rw [visitGo, if_pos hvis]
      exact ⟨⟨[], by simp, by simp⟩, fun x hx => hx, hvis, hInv, hNodup, hP⟩
    · have hfidO : fid ∉ st.order := fun ho => hvis ((hInv fid).mpr (Or.inl ho))
      have hfidA : fid ∉ A := fun ha => hvis ((hInv fid).mpr (Or.inr ha))
      have hfold : ∀ (deps : List Str) (st2 : TopoState),
          (∀ d ∈ deps, graphEdge graph fid d) →
          (∀ x, x ∈ st2.visited ↔ (x ∈ st2.order ∨ x ∈ (fid :: A))) →
          st2.order.Nodup →
          (∀ x ∈ st2.order, ∀ y ∈ graphGet graph x,
            y ∈ st2.order ∧ idxOf y st2.order < idxOf x st2.order) →
          (∀ x ∈ st.visited, x ∈ st2.visited) →
          fid ∈ st2.visited →
          (∃ t, (deps.foldl (fun st dep => visitGo graph fuel dep st) st2).order =
              st2.order ++ t ∧ ∀ z ∈ t, z ∉ st2.visited) ∧
          (∀ x ∈ st2.visited,
            x ∈ (deps.foldl (fun st dep => visitGo graph fuel dep st) st2).visited) ∧
          (∀ x, x ∈ (deps.foldl (fun st dep => visitGo graph fuel dep st) st2).visited ↔
            (x ∈ (deps.foldl (fun st dep => visitGo graph fuel dep st) st2).order ∨
             x ∈ (fid :: A))) ∧
          (deps.foldl (fun st dep => visitGo graph fuel dep st) st2).order.Nodup ∧
          (∀ x ∈ (deps.foldl (fun st dep => visitGo graph fuel dep st) st2).order,
            ∀ y ∈ graphGet graph x,
              y ∈ (deps.foldl (fun st dep => visitGo graph fuel dep st) st2).order ∧
                idxOf y (deps.foldl (fun st dep => visitGo graph fuel dep st) st2).order <
                  idxOf x (deps.foldl (fun st dep => visitGo graph fuel dep st) st2).order) ∧
          (∀ d ∈ deps, d ∈ (deps.foldl (fun st dep => visitGo graph fuel dep st) st2).visited) := by
        intro deps
        induction deps with
        | nil =>
          intro st2 _ hInv2 hN2 hP2 _ _
          exact ⟨⟨[], by simp, by simp⟩, fun x hx => hx, hInv2, hN2, hP2, by simp⟩
        | cons d rest ihd =>
          intro st2 hdeps hInv2 hN2 hP2 hsub2 hfid2
          have hdedge : graphEdge graph fid d := hdeps d (List.mem_cons_self _ _)
          have hdall : d ∈ allIds graph := graphGet_mem_allIds graph fid d hdedge
          have hmd : countNV graph st2.visited < fuel := by
            have h1 : countNV graph st2.visited < countNV graph st.visited :=
              countNV_lt graph fid hsub2 hfid hfid2 hvis
            omega
          have hA' : ∀ a ∈ (fid :: A), Relation.TransGen (graphEdge graph) a d := by
            intro a ha
            rcases List.mem_cons.mp ha with rfl | haA
            · exact Relation.TransGen.single hdedge
            · exact Relation.TransGen.tail (hAr a haA) hdedge
          obtain ⟨⟨t1, ht1, ht1n⟩, hsubd, hdin, hInv3, hN3, hP3⟩ :=
            ih d st2 (fid :: A) hdall hmd hA' hInv2 hN2 hP2
          obtain ⟨⟨t2, ht2, ht2n⟩, hsubr, hInv4, hN4, hP4, hcompl⟩ :=
            ihd (visitGo graph fuel d st2) (fun x hx => hdeps x (List.mem_cons_of_mem _ hx))
              hInv3 hN3 hP3 (fun x hx => hsubd x (hsub2 x hx)) (hsubd fid hfid2)
          rw [List.foldl_cons]
          refine ⟨⟨t1 ++ t2, ?_, ?_⟩, ?_, hInv4, hN4, hP4, ?_⟩
          · rw [ht2, ht1, List.append_assoc]
          · intro z hz
            rcases List.mem_append.mp hz with h1 | h2
            · exact ht1n z h1
            · intro hzin
              exact ht2n z h2 (hsubd z hzin)
          · exact fun x hx => hsubr x (hsubd x hx)
          · intro e he
            rcases List.mem_cons.mp he with rfl | her
            · exact hsubr e hdin
            · exact hcompl e her
      have hInv1 : ∀ x, x ∈ (setAdd fid st.visited) ↔ (x ∈ st.order ∨ x ∈ (fid :: A)) := by
        intro x
        rw [mem_setAdd, hInv]
        constructor
        · rintro ((ho | ha) | rfl)
          · exact Or.inl ho
          · exact Or.inr (List.mem_cons_of_mem _ ha)
          · exact Or.inr (List.mem_cons_self _ _)
        · rintro (ho | hca)
          · exact Or.inl (Or.inl ho)
          · rcases List.mem_cons.mp hca with rfl | ha
            · exact Or.inr rfl
            · exact Or.inl (Or.inr ha)
      obtain ⟨⟨t, ht, htn⟩, hsubF, hInvF, hNF, hPF, hcomplF⟩ :=
        hfold (graphGet graph fid) ⟨setAdd fid st.visited, st.order⟩
          (fun d hd => hd) hInv1 hNodup hP
          (fun x hx => (mem_setAdd fid x st.visited).mpr (Or.inl hx))
          ((mem_setAdd fid fid st.visited).mpr (Or.inr rfl))
      rw [visitGo, if_neg hvis]
      set stF := (graphGet graph fid).foldl (fun st dep => visitGo graph fuel dep st)
        ⟨setAdd fid st.visited, st.order⟩ with hstF
      have hfidFO : fid ∉ stF.order := by
        rw [ht]
        intro hmem
        rcases List.mem_append.mp hmem with ho | hto
        · exact hfidO ho
        · exact htn fid hto ((mem_setAdd fid fid st.visited).mpr (Or.inr rfl))
      refine ⟨⟨t ++ [fid], ?_, ?_⟩, ?_, ?_, ?_, ?_, ?_⟩
      · show stF.order ++ [fid] = st.order ++ (t ++ [fid])
        rw [ht, List.append_assoc]
      · intro z hz
        rcases List.mem_append.mp hz with h1 | h2
        · intro hzv
          exact htn z h1 ((mem_setAdd fid z st.visited).mpr (Or.inl hzv))
        · rcases List.mem_singleton.mp h2 with rfl
          exact hvis
      · exact fun x hx => hsubF x ((mem_setAdd fid x st.visited).mpr (Or.inl hx))
      · exact hsubF fid ((mem_setAdd fid fid st.visited).mpr (Or.inr rfl))
      · intro x
        show x ∈ stF.visited ↔ x ∈ stF.order ++ [fid] ∨ x ∈ A
        rw [hInvF x, List.mem_append, List.mem_singleton]
        constructor
        · rintro (ho | hca)
          · exact Or.inl (Or.inl ho)
          · rcases List.mem_cons.mp hca with rfl | ha
            · exact Or.inl (Or.inr rfl)
            · exact Or.inr ha
        · rintro ((ho | rfl) | ha)
          · exact Or.inl ho
          · exact Or.inr (List.mem_cons_self _ _)
          · exact Or.inr (List.mem_cons_of_mem _ ha)
      · show (stF.order ++ [fid]).Nodup
        rw [List.nodup_append]
        exact ⟨hNF, List.nodup_singleton _, by simpa using hfidFO⟩
      · intro x hx y hy
        show y ∈ stF.order ++ [fid] ∧
          idxOf y (stF.order ++ [fid]) < idxOf x (stF.order ++ [fid])
        rcases List.mem_append.mp hx with hxo | hxf
        · obtain ⟨hyo, hylt⟩ := hPF x hxo y hy
          refine ⟨List.mem_append_left _ hyo, ?_⟩
          rw [idxOf_append_left y _ _ hyo, idxOf_append_left x _ _ hxo]
          exact hylt
        · rcases List.mem_singleton.mp hxf with rfl
          have hyv : y ∈ stF.visited := hcomplF y hy
          have hyoA := (hInvF y).mp hyv
          have hyo : y ∈ stF.order := by
            rcases hyoA with hyo | hca
            · exact hyo
            · exfalso
              rcases List.mem_cons.mp hca with rfl | hA2
              · exact hacyc y (Relation.TransGen.single hy)
              · exact hacyc y (Relation.TransGen.tail (hAr y hA2) hy)
          refine ⟨List.mem_append_left _ hyo, ?_⟩
          rw [idxOf_append_left y _ _ hyo, idxOf_append_self x _ hfidFO]
          exact idxOf_lt_length y _ hyo

/-- Total length of the dependency lists. -/
theorem length_flatMap_snd (graph : List (Str × List Str)) :
    (graph.flatMap (fun p => p.2)).length = (graph.map (fun p => p.2.length)).sum := by
  induction graph with
  | nil => rfl
  | cons p rest ih => simp [List.flatMap_cons, List.length_append, ih]

/-- The DFS fuel strictly bounds the unvisited count. -/
theorem countNV_lt_dfsFuel (graph : List (Str × List Str)) (v : List Str) :
    countNV graph v < dfsFuel graph := by
  have h1 : countNV graph v ≤ (allIds graph).length := List.length_filter_le _ _
  have h2 : (allIds graph).length =
      graph.length + (graph.map (fun p => p.2.length)).sum := by
    rw [allIds, List.length_append, List.length_map, length_flatMap_snd]
  rw [dfsFuel]
  omega

/-- C8: on an acyclic dependency graph, the evaluation order contains every
field of the form, and every id in the order appears after each of its
dependencies. -/
theorem C8_evaluation_order (form : FormDSL)
    (hacyc : AcyclicGraph (buildDependencyGraph form)) :
    (∀ f ∈ getAllFields form, f.id ∈ getEvaluationOrder form) ∧
    (∀ x y, y ∈ graphGet (buildDependencyGraph form) x →
      x ∈ getEvaluationOrder form →
      y ∈ getEvaluationOrder form ∧
        idxOf y (getEvaluationOrder form) < idxOf x (getEvaluationOrder form)) := by
  have hkeys : ∀ f ∈ getAllFields form, f.id ∈ allIds (buildDependencyGraph form) := by
    intro f hf
    exact mapGet_some_mem_allIds _ _ (buildGo_key_exists _ _ _ hf)
  have htop : ∀ (fids : List Str) (st : TopoState),
      (∀ fid ∈ fids, fid ∈ allIds (buildDependencyGraph form)) →
      (∀ x, x ∈ st.visited ↔ x ∈ st.order) →
      st.order.Nodup →
      (∀ x ∈ st.order, ∀ y ∈ graphGet (buildDependencyGraph form) x,
        y ∈ st.order ∧ idxOf y st.order < idxOf x st.order) →
      (∀ x, x ∈ (fids.foldl (fun st fieldId => visitGo (buildDependencyGraph form)
          (dfsFuel (buildDependencyGraph form)) fieldId st) st).visited ↔
        x ∈ (fids.foldl (fun st fieldId => visitGo (buildDependencyGraph form)
          (dfsFuel (buildDependencyGraph form)) fieldId st) st).order) ∧
      (fids.foldl (fun st fieldId => visitGo (buildDependencyGraph form)
          (dfsFuel (buildDependencyGraph form)) fieldId st) st).order.Nodup ∧
      (∀ x ∈ (fids.foldl (fun st fieldId => visitGo (buildDependencyGraph form)
          (dfsFuel (buildDependencyGraph form)) fieldId st) st).order,
        ∀ y ∈ graphGet (buildDependencyGraph form) x,
          y ∈ (fids.foldl (fun st fieldId => visitGo (buildDependencyGraph form)
              (dfsFuel (buildDependencyGraph form)) fieldId st) st).order ∧
            idxOf y (fids.foldl (fun st fieldId => visitGo (buildDependencyGraph form)
              (dfsFuel (buildDependencyGraph form)) fieldId st) st).order <
              idxOf x (fids.foldl (fun st fieldId => visitGo (buildDependencyGraph form)
                (dfsFuel (buildDependencyGraph form)) fieldId st) st).order) ∧
      (∀ x ∈ st.visited, x ∈ (fids.foldl (fun st fieldId => visitGo (buildDependencyGraph form)
          (dfsFuel (buildDependencyGraph form)) fieldId st) st).visited) ∧
      (∀ fid ∈ fids, fid ∈ (fids.foldl (fun st fieldId => visitGo (buildDependencyGraph form)
          (dfsFuel (buildDependencyGraph form)) fieldId st) st).visited) := by
    intro fids
    induction fids with
    | nil =>
      intro st _ hInv hN hP
      exact ⟨hInv, hN, hP, fun x hx => hx, by simp⟩
    | cons fid rest ihf =>
      intro st hall hInv hN hP
      obtain ⟨_, hsub, hfidin, hInv1, hN1, hP1⟩ :=
        visitGo_spec _ hacyc (dfsFuel (buildDependencyGraph form)) fid st []
          (hall fid (List.mem_cons_self _ _)) (countNV_lt_dfsFuel _ _)
          (by simp) (fun x => by rw [hInv x]; simp) hN hP
      have hInv1' : ∀ x, x ∈ (visitGo (buildDependencyGraph form)
          (dfsFuel (buildDependencyGraph form)) fid st).visited ↔
          x ∈ (visitGo (buildDependencyGraph form)
            (dfsFuel (buildDependencyGraph form)) fid st).order := by
        intro x
        rw [hInv1 x]
        simp
      obtain ⟨hI, hNr, hPr, hmono, hrest⟩ :=
        ihf (visitGo (buildDependencyGraph form) (dfsFuel (buildDependencyGraph form)) fid st)
          (fun g hg => hall g (List.mem_cons_of_mem _ hg)) hInv1' hN1 hP1
      rw [List.foldl_cons]
      refine ⟨hI, hNr, hPr, fun x hx => hmono x (hsub x hx), ?_⟩
      intro g hg
      rcases List.mem_cons.mp hg with rfl | hgr
      · exact hmono g hfidin
      · exact hrest g hgr
  obtain ⟨hI, _, hP, _, hcompl⟩ :=
    htop ((getAllFields form).map (fun f => f.id)) ⟨[], []⟩
      (by
        intro fid hfid
        obtain ⟨f, hf, rfl⟩ := List.mem_map.mp hfid
        exact hkeys f hf)
      (by simp) List.nodup_nil (by simp)
  constructor
  · intro f hf
    exact (hI f.id).mp (hcompl f.id (List.mem_map_of_mem _ hf))
  · intro x y hy hx
    exact hP x hx y hy

/-- C8 witness: the acyclic one-field form's order contains its field. -/
theorem C8_evaluation_order_witness :
    (['a'] : Str) ∈ getEvaluationOrder c4AcyclicForm :=
  (C8_evaluation_order c4AcyclicForm c4AcyclicForm_acyclic).1
    { id := ['a'], type := .text, label := ['A'] } (List.mem_cons_self _ _)

/-- C3 (code bug at `c3Input`): a definition relying on the zod defaults for
a section's `fields`/`groups` passes schema validation, yet
`validateFormDefinition` throws (modelled `Except.error ()`) instead of
running checks 2–6 and returning their accumulated error list, because the
raw cast object — not the parsed, default-applied result — is iterated by
`getAllFields`.  The short-circuit half of the claim does hold: a
shape-invalid input returns exactly the shape errors. -/
theorem C3_schema_default_crash :
    (validateZodSchema c3Input = [] ∧ validateFormDefinition c3Input = .error ()) ∧
    (validateZodSchema (.jstr ['x']) ≠ [] ∧
     validateFormDefinition (.jstr ['x']) = .ok (validateZodSchema (.jstr ['x']))) := by
  exact ⟨⟨by decide, by decide⟩, by decide, by decide⟩
